import Mathlib

/-!
Verification of the Club 19 legacy data ingestion pipeline.

A shallow embedding of `src/scripts/legacy-data-pipeline.py` together with
theorems settling the frozen claims about its specification.

Modelling conventions:
* Python strings are Lean `String`s; Python's string ordering (code-point
  lexicographic) is embedded as an executable Boolean comparison `strLtB`,
  because the comparison must evaluate inside the kernel.
* Python `str.lower` / `str.capitalize` are modelled on the ASCII range
  (`lowChar` / `upChar`); none of the claims depend on non-ASCII case mapping.
* Python floats are modelled as rationals (`ℚ`); the builtin `float(str)`
  parser is an explicit parameter (`pyFloat`), with `none` standing for a
  raised `ValueError`.
* Python dicts (insertion ordered) are association lists with unique keys.
* Python sets that the script only ever observes through `sorted(...)` and
  `len(...)` are insertion-ordered duplicate-free lists (`addSet`).
* `uuid.uuid4()` is an injected generator `Nat → String` applied to a counter,
  matching the spec's demand for a pluggable identifier generator.
-/

/-- Characters with equal code points are equal. -/
theorem charToNat_inj {a b : Char} (h : a.toNat = b.toNat) : a = b :=
  Char.ext (UInt32.ext h)

/-- Code-point lexicographic "less than" on char lists, as Python compares
strings.cf. CPython `unicode_compare`. -/
def lexLtB : List Char → List Char → Bool
  | [], [] => false
  | [], _ :: _ => true
  | _ :: _, [] => false
  | a :: as, b :: bs =>
    if a.toNat < b.toNat then true
    else if a.toNat = b.toNat then lexLtB as bs else false

/-- Python string `<`. -/
def strLtB (a b : String) : Bool := lexLtB a.data b.data

/-- Python string `≤` (the order `sorted(...)` produces). -/
def sLe (a b : String) : Prop := strLtB b a = false

instance : DecidableRel sLe := fun _ _ => instDecidableEqBool _ _

theorem lexLtB_irrefl : ∀ as, lexLtB as as = false
  | [] => rfl
  | _ :: as => by simp [lexLtB, lexLtB_irrefl as]

theorem lexLtB_asymm : ∀ as bs, lexLtB as bs = true → lexLtB bs as = false
  | [], [] => by simp [lexLtB]
  | [], _ :: _ => by simp [lexLtB]
  | _ :: _, [] => by simp [lexLtB]
  | a :: as, b :: bs => by
    intro h
    simp only [lexLtB] at h ⊢
    by_cases h1 : a.toNat < b.toNat
    · have h2 : ¬ b.toNat < a.toNat := by omega
      have h3 : ¬ b.toNat = a.toNat := by omega
      simp [h2, h3]
    · by_cases h2 : a.toNat = b.toNat
      · have h3 : ¬ b.toNat < a.toNat := by omega
        have h4 : b.toNat = a.toNat := by omega
        simp only [h1, h2, if_false, if_true, if_neg, ite_true, ite_false] at h
        simp [h3, h4, lexLtB_asymm as bs (by simpa using h)]
      · simp [h1, h2] at h

theorem lexLtB_connex : ∀ as bs, lexLtB as bs = false → lexLtB bs as = false → as = bs
  | [], [] => by intro _ _; rfl
  | [], _ :: _ => by simp [lexLtB]
  | _ :: _, [] => by simp [lexLtB]
  | a :: as, b :: bs => by
    intro h1 h2
    simp only [lexLtB] at h1 h2
    by_cases hab : a.toNat < b.toNat
    · simp [hab] at h1
    · by_cases hba : b.toNat < a.toNat
      · simp [hba] at h2
      · have he : a.toNat = b.toNat := by omega
        have he' : b.toNat = a.toNat := by omega
        simp only [hab, he, if_true, ite_false, if_neg, ite_true] at h1
        simp only [hba, he', if_true, ite_false, if_neg, ite_true] at h2
        have := lexLtB_connex as bs (by simpa using h1) (by simpa using h2)
        rw [charToNat_inj he, this]

theorem lexLtB_linear : ∀ cs as bs, lexLtB cs as = true →
    lexLtB cs bs = true ∨ lexLtB bs as = true
  | [], [], _ => by simp [lexLtB]
  | [], _ :: _, [] => fun _ => Or.inr (by simp [lexLtB])
  | [], _ :: _, _ :: _ => fun _ => Or.inl (by simp [lexLtB])
  | _ :: _, [], _ => by simp [lexLtB]
  | _ :: _, _ :: _, [] => fun _ => Or.inr (by simp [lexLtB])
  | c :: cs', a :: as', b :: bs' => by
    intro h
    simp only [lexLtB] at h ⊢
    by_cases hca : c.toNat < a.toNat
    · by_cases hcb : c.toNat < b.toNat
      · exact Or.inl (by simp [hcb])
      · have hba : b.toNat < a.toNat := by omega
        exact Or.inr (by simp [hba])
    · have hce : c.toNat = a.toNat := by
        by_cases h' : c.toNat = a.toNat
        · exact h'
        · simp [hca, h'] at h
      simp only [hca, hce, if_neg, ite_true, if_true, ite_false] at h
      by_cases hcb : c.toNat < b.toNat
      · exact Or.inl (by simp [hcb])
      · by_cases hbc : b.toNat < c.toNat
        · have hba : b.toNat < a.toNat := by omega
          exact Or.inr (by simp [hba])
        · have hbe : c.toNat = b.toNat := by omega
          have hbe' : b.toNat = a.toNat := by omega
          rcases lexLtB_linear cs' as' bs' (by simpa using h) with h' | h'
          · exact Or.inl (by simp [hcb, hbe, h'])
          · exact Or.inr (by simp [hbc, hbe', h'])

instance : IsTotal String sLe := by
  constructor
  intro a b
  unfold sLe
  by_cases h : strLtB b a = true
  · exact Or.inr (lexLtB_asymm _ _ h)
  · exact Or.inl (by simpa using h)

instance : IsTrans String sLe := by
  constructor
  intro a b c hab hbc
  unfold sLe at hab hbc ⊢
  by_cases h : strLtB c a = true
  · rcases lexLtB_linear c.data a.data b.data h with h' | h'
    · exact absurd h' (by simpa [strLtB] using hbc)
    · exact absurd h' (by simpa [strLtB] using hab)
  · simpa using h

instance : IsAntisymm String sLe := by
  constructor
  intro a b hab hba
  unfold sLe at hab hba
  have := lexLtB_connex b.data a.data hab hba
  cases a
  cases b
  exact congrArg String.mk this.symm

/-- `sorted(...)` on a list of strings: Python's Timsort output on a total
order is characterised by sortedness plus permutation, which insertion sort
shares. -/
def sortStr (l : List String) : List String := l.insertionSort sLe

theorem sortStr_sorted (l : List String) : List.Sorted sLe (sortStr l) :=
  List.sorted_insertionSort sLe l

theorem sortStr_perm (l : List String) : (sortStr l).Perm l :=
  List.perm_insertionSort sLe l

theorem sortStr_eq_of_perm {l l' : List String} (h : l.Perm l') :
    sortStr l = sortStr l' :=
  List.eq_of_perm_of_sorted ((sortStr_perm l).trans (h.trans (sortStr_perm l').symm))
    (sortStr_sorted l) (sortStr_sorted l')

/-- ASCII model of Python `str.upper` on one character (as used by
`str.capitalize` for the first character). -/
def upChar (c : Char) : Char :=
  if 97 ≤ c.toNat ∧ c.toNat ≤ 122 then Char.ofNat (c.toNat - 32) else c

/-- ASCII model of Python `str.lower` on one character. -/
def lowChar (c : Char) : Char :=
  if 65 ≤ c.toNat ∧ c.toNat ≤ 90 then Char.ofNat (c.toNat + 32) else c

theorem toNat_ofNat_sub32 {m : ℕ} (h1 : 97 ≤ m) (h2 : m ≤ 122) :
    (Char.ofNat (m - 32)).toNat = m - 32 := by
  interval_cases m <;> decide

theorem toNat_ofNat_add32 {m : ℕ} (h1 : 65 ≤ m) (h2 : m ≤ 90) :
    (Char.ofNat (m + 32)).toNat = m + 32 := by
  interval_cases m <;> decide

theorem upChar_idem (c : Char) : upChar (upChar c) = upChar c := by
  unfold upChar
  split_ifs with h1 h2
  · exfalso
    rw [toNat_ofNat_sub32 h1.1 h1.2] at h2
    omega
  · rfl
  · rfl

theorem lowChar_idem (c : Char) : lowChar (lowChar c) = lowChar c := by
  unfold lowChar
  split_ifs with h1 h2
  · exfalso
    rw [toNat_ofNat_add32 h1.1 h1.2] at h2
    omega
  · rfl
  · rfl

/-- The whitespace class of Python `str.split()` / `str.strip()`, restricted
to ASCII. -/
def isPySpace (c : Char) : Bool := c.toNat = 32 || (9 ≤ c.toNat && c.toNat ≤ 13)

theorem isPySpace_false {c : Char} (h : 33 ≤ c.toNat) : isPySpace c = false := by
  unfold isPySpace
  simp only [Bool.or_eq_false_iff, Bool.and_eq_false_iff, decide_eq_false_iff_not]
  omega

theorem isPySpace_upChar (c : Char) : isPySpace (upChar c) = isPySpace c := by
  unfold upChar
  split_ifs with h
  · rw [isPySpace_false (c := Char.ofNat (c.toNat - 32)) (by rw [toNat_ofNat_sub32 h.1 h.2]; omega),
      isPySpace_false (by omega)]
  · rfl

theorem isPySpace_lowChar (c : Char) : isPySpace (lowChar c) = isPySpace c := by
  unfold lowChar
  split_ifs with h
  · rw [isPySpace_false (c := Char.ofNat (c.toNat + 32)) (by rw [toNat_ofNat_add32 h.1 h.2]; omega),
      isPySpace_false (by omega)]
  · rfl

/-- Python `str.strip()` (ASCII whitespace model): drop trailing whitespace,
then leading whitespace. -/
def pyStrip (s : String) : String :=
  String.mk (((s.data.reverse.dropWhile isPySpace).reverse).dropWhile isPySpace)

/-- Python `str.lower()` (ASCII model). -/
def pyLower (s : String) : String := String.mk (s.data.map lowChar)

/-- Python `str.capitalize()` (ASCII model): first character uppercased, the
rest lowercased. -/
def pyCapitalize (w : String) : String :=
  match w.data with
  | [] => ""
  | c :: cs => String.mk (upChar c :: cs.map lowChar)

/-- Python `sep.join(ws)`. -/
def pyJoin (sep : String) : List String → String
  | [] => ""
  | [w] => w
  | w :: ws => w ++ sep ++ pyJoin sep ws

/-- Helper for `str.split()`: accumulates the current (reversed) token. -/
def tokAux : List Char → List Char → List String
  | [], cur => if cur = [] then [] else [String.mk cur.reverse]
  | c :: rest, cur =>
    if isPySpace c then
      if cur = [] then tokAux rest [] else String.mk cur.reverse :: tokAux rest []
    else tokAux rest (c :: cur)

/-- Python `str.split()` with no arguments: maximal runs of non-whitespace. -/
def pyTokens (s : String) : List String := tokAux s.data []

/-- `title_case` (src/scripts/legacy-data-pipeline.py lines 106-110). -/
def title_case (value : String) : String :=
  if value = "" then ""
  else pyJoin " " ((pyTokens value).map pyCapitalize)

/-- Python `set.add` on an insertion-ordered duplicate-free list. -/
def addSet {α : Type} [DecidableEq α] (s : List α) (x : α) : List α :=
  if x ∈ s then s else s ++ [x]

theorem mem_addSet {α : Type} [DecidableEq α] (s : List α) (x y : α) :
    y ∈ addSet s x ↔ y ∈ s ∨ y = x := by
  unfold addSet
  split_ifs with h
  · constructor
    · exact Or.inl
    · rintro (h' | rfl) <;> [exact h'; exact h]
  · simp

theorem nodup_addSet {α : Type} [DecidableEq α] (s : List α) (x : α)
    (h : s.Nodup) : (addSet s x).Nodup := by
  unfold addSet
  split_ifs with hm
  · exact h
  · simpa [List.nodup_append] using ⟨h, hm⟩

theorem mem_foldl_addSet {α : Type} [DecidableEq α] :
    ∀ (l : List α) (init : List α) (y : α),
    y ∈ l.foldl addSet init ↔ y ∈ init ∨ y ∈ l
  | [], init, y => by simp
  | x :: l, init, y => by
    simp only [List.foldl_cons, mem_foldl_addSet l (addSet init x) y, mem_addSet,
      List.mem_cons]
    tauto

theorem nodup_foldl_addSet {α : Type} [DecidableEq α] :
    ∀ (l : List α) (init : List α), init.Nodup → (l.foldl addSet init).Nodup
  | [], _, h => h
  | x :: l, init, h => nodup_foldl_addSet l (addSet init x) (nodup_addSet init x h)

/-- Lookup in an insertion-ordered association list (Python `d[k]` /
`k in d`). -/
def findA {β : Type} (k : String) : List (String × β) → Option β
  | [] => none
  | (k', v) :: rest => if k' = k then some v else findA k rest

/-- Python `k in d`. -/
def hasKey {β : Type} (k : String) (l : List (String × β)) : Bool :=
  (findA k l).isSome

/-- In-place update of the value at a key (all occurrences; keys are unique
by construction). -/
def updA {β : Type} (k : String) (f : β → β) : List (String × β) → List (String × β)
  | [] => []
  | (k', v) :: rest =>
    if k' = k then (k', f v) :: updA k f rest else (k', v) :: updA k f rest

/-- Python `d[k] = v` when `d` may or may not already contain `k`. -/
def setA {β : Type} (k : String) (v : β) (l : List (String × β)) :
    List (String × β) :=
  if hasKey k l then updA k (fun _ => v) l else l ++ [(k, v)]

/-- Python `if k not in d: d[k] = init`. -/
def ensureA {β : Type} (k : String) (init : β) (l : List (String × β)) :
    List (String × β) :=
  if hasKey k l then l else l ++ [(k, init)]

theorem findA_append {β : Type} (k : String) :
    ∀ (l₁ l₂ : List (String × β)),
    findA k (l₁ ++ l₂) = ((findA k l₁).rec (findA k l₂) fun v => some v)
  | [], _ => rfl
  | (k', v) :: rest, l₂ => by
    simp only [List.cons_append, findA]
    split_ifs with h
    · rfl
    · exact findA_append k rest l₂

theorem findA_updA {β : Type} (k k' : String) (f : β → β) :
    ∀ (l : List (String × β)),
    findA k (updA k' f l) = if k' = k then (findA k l).map f else findA k l
  | [] => by
    simp only [updA, findA]
    split_ifs <;> rfl
  | (k₀, v) :: rest => by
    simp only [updA, findA]
    by_cases h0 : k₀ = k'
    · by_cases h1 : k₀ = k
      · subst h0
        subst h1
        simp [findA, findA_updA k₀ k₀ f rest]
      · subst h0
        simp only [if_pos rfl, findA, if_neg h1]
        rw [findA_updA k k₀ f rest]
        simp [h1]
    · by_cases h1 : k₀ = k
      · subst h1
        have hne : ¬ k' = k₀ := fun hh => h0 hh.symm
        simp [findA, h0, hne]
      · simp only [if_neg h0, findA, if_neg h1]
        rw [findA_updA k k' f rest]

theorem findA_setA_self {β : Type} (k : String) (v : β)
    (l : List (String × β)) : findA k (setA k v l) = some v := by
  unfold setA hasKey
  split_ifs with h
  · rw [findA_updA]
    simp only [if_pos rfl]
    cases hf : findA k l
    · rw [hf] at h
      simp at h
    · simp
  · rw [findA_append]
    cases hf : findA k l
    · simp [findA]
    · rw [hf] at h
      simp at h

theorem findA_setA_other {β : Type} {k k' : String} (hne : k' ≠ k) (v : β)
    (l : List (String × β)) : findA k (setA k' v l) = findA k l := by
  unfold setA
  split_ifs with h
  · rw [findA_updA]
    simp [hne]
  · rw [findA_append]
    cases hf : findA k l
    · simp [findA, hne]
    · simp

theorem findA_ensureA_self {β : Type} (k : String) (init : β)
    (l : List (String × β)) :
    findA k (ensureA k init l) = some ((findA k l).getD init) := by
  unfold ensureA hasKey
  split_ifs with h
  · cases hf : findA k l
    · rw [hf] at h
      simp at h
    · simp [hf]
  · cases hf : findA k l
    · rw [findA_append, hf]
      simp [findA]
    · rw [hf] at h
      simp at h

theorem findA_ensureA_other {β : Type} {k k' : String} (hne : k' ≠ k)
    (init : β) (l : List (String × β)) :
    findA k (ensureA k' init l) = findA k l := by
  unfold ensureA
  split_ifs with h
  · rfl
  · rw [findA_append]
    cases hf : findA k l
    · simp [findA, hne]
    · simp

/-! ## Calendar dates

The proleptic Gregorian arithmetic of Python `datetime` + `timedelta`,
embedded with the standard civil-from-days / days-from-civil algorithms.
-/

/-- Day count (1970-01-01 = 0) of a Gregorian calendar date. -/
def daysFromCivil (y m d : Int) : Int :=
  let y' : Int := if m ≤ 2 then y - 1 else y
  let era : Int := Int.fdiv y' 400
  let yoe : Int := y' - era * 400
  let mp : Int := if 2 < m then m - 3 else m + 9
  let doy : Int := (153 * mp + 2).ediv 5 + d - 1
  let doe : Int := yoe * 365 + yoe.ediv 4 - yoe.ediv 100 + doy
  era * 146097 + doe - 719468

/-- Gregorian calendar date of a day count (inverse of `daysFromCivil`). -/
def civilFromDays (z0 : Int) : Int × Int × Int :=
  let z : Int := z0 + 719468
  let era : Int := Int.fdiv z 146097
  let doe : Int := z - era * 146097
  let yoe : Int := (doe - doe.ediv 1460 + doe.ediv 36524 - doe.ediv 146096).ediv 365
  let y : Int := yoe + era * 400
  let doy : Int := doe - (365 * yoe + yoe.ediv 4 - yoe.ediv 100)
  let mp : Int := (5 * doy + 2).ediv 153
  let d : Int := doy - (153 * mp + 2).ediv 5 + 1
  let m : Int := if mp < 10 then mp + 3 else mp - 9
  (if m ≤ 2 then y + 1 else y, m, d)

/-! ## strptime

CPython's `_strptime` compiles each format directive to a regex fragment
(`%d` ↦ `3[01]|[12]\d|0[1-9]|[1-9]`, `%m` ↦ `1[0-2]|0[1-9]|[1-9]`,
`%Y` ↦ `\d\d\d\d`, `%y` ↦ `\d\d`), anchors the whole pattern at the start,
requires the match to consume the entire string, and then validates the
captured numbers through the `datetime` constructor.  The embedding lists a
directive's alternatives in backtracking priority order and takes the first
full match (`List.findSome?`).
-/

def digit? (c : Char) : Bool := 48 ≤ c.toNat && c.toNat ≤ 57

def dval (c : Char) : Nat := c.toNat - 48

/-- `%d` alternatives: `3[01]`, `[12]\d`, `0[1-9]`, `[1-9]`. -/
def dayCands : List Char → List (Nat × List Char)
  | c1 :: c2 :: rest =>
    (if c1 = '3' ∧ (c2 = '0' ∨ c2 = '1') then [(30 + dval c2, rest)] else []) ++
    (if (c1 = '1' ∨ c1 = '2') ∧ digit? c2 then [(10 * dval c1 + dval c2, rest)] else []) ++
    (if c1 = '0' ∧ digit? c2 ∧ c2 ≠ '0' then [(dval c2, rest)] else []) ++
    (if digit? c1 ∧ c1 ≠ '0' then [(dval c1, c2 :: rest)] else [])
  | [c1] => if digit? c1 ∧ c1 ≠ '0' then [(dval c1, [])] else []
  | [] => []

/-- `%m` alternatives: `1[0-2]`, `0[1-9]`, `[1-9]`. -/
def monthCands : List Char → List (Nat × List Char)
  | c1 :: c2 :: rest =>
    (if c1 = '1' ∧ (c2 = '0' ∨ c2 = '1' ∨ c2 = '2') then [(10 + dval c2, rest)] else []) ++
    (if c1 = '0' ∧ digit? c2 ∧ c2 ≠ '0' then [(dval c2, rest)] else []) ++
    (if digit? c1 ∧ c1 ≠ '0' then [(dval c1, c2 :: rest)] else [])
  | [c1] => if digit? c1 ∧ c1 ≠ '0' then [(dval c1, [])] else []
  | [] => []

/-- `%Y`: exactly four digits. -/
def year4 : List Char → Option (Nat × List Char)
  | c1 :: c2 :: c3 :: c4 :: rest =>
    if digit? c1 ∧ digit? c2 ∧ digit? c3 ∧ digit? c4 then
      some (1000 * dval c1 + 100 * dval c2 + 10 * dval c3 + dval c4, rest)
    else none
  | _ => none

/-- `%y`: two digits; 00-68 map to 2000-2068, 69-99 to 1969-1999. -/
def year2 : List Char → Option (Nat × List Char)
  | c1 :: c2 :: rest =>
    if digit? c1 ∧ digit? c2 then
      let y := 10 * dval c1 + dval c2
      some (if y ≤ 68 then 2000 + y else 1900 + y, rest)
    else none
  | _ => none

/-- A literal character of the format string. -/
def lit (c : Char) : List Char → Option (List Char)
  | c1 :: rest => if c1 = c then some rest else none
  | [] => none

def isLeap (y : Nat) : Bool := (y % 4 = 0 && y % 100 ≠ 0) || y % 400 = 0

def daysInMonth (y m : Nat) : Nat :=
  if m = 2 then (if isLeap y then 29 else 28)
  else if m = 4 ∨ m = 6 ∨ m = 9 ∨ m = 11 then 30 else 31

/-- Validity of `datetime(y, m, d)` (`MINYEAR = 1`, `MAXYEAR = 9999`). -/
def validYMD (y m d : Nat) : Bool :=
  1 ≤ y && y ≤ 9999 && 1 ≤ m && m ≤ 12 && 1 ≤ d && d ≤ daysInMonth y m

/-- `strptime(s, "%d/%m/%Y")`, up to datetime validation. -/
def matchDMY4 (cs : List Char) : Option (Nat × Nat × Nat) :=
  (dayCands cs).findSome? fun dc =>
    (lit '/' dc.2).bind fun r2 =>
      (monthCands r2).findSome? fun mc =>
        (lit '/' mc.2).bind fun r4 =>
          (year4 r4).bind fun yc =>
            if yc.2 = [] then some (yc.1, mc.1, dc.1) else none

/-- `strptime(s, "%d/%m/%y")`, up to datetime validation. -/
def matchDMY2 (cs : List Char) : Option (Nat × Nat × Nat) :=
  (dayCands cs).findSome? fun dc =>
    (lit '/' dc.2).bind fun r2 =>
      (monthCands r2).findSome? fun mc =>
        (lit '/' mc.2).bind fun r4 =>
          (year2 r4).bind fun yc =>
            if yc.2 = [] then some (yc.1, mc.1, dc.1) else none

/-- `strptime(s, "%Y-%m-%d")`, up to datetime validation. -/
def matchISO (cs : List Char) : Option (Nat × Nat × Nat) :=
  (year4 cs).bind fun yc =>
    (lit '-' yc.2).bind fun r2 =>
      (monthCands r2).findSome? fun mc =>
        (lit '-' mc.2).bind fun r4 =>
          (dayCands r4).findSome? fun dc =>
            if dc.2 = [] then some (yc.1, mc.1, dc.1) else none

/-- `strptime(s, "%m/%d/%Y")`, up to datetime validation. -/
def matchMDY4 (cs : List Char) : Option (Nat × Nat × Nat) :=
  (monthCands cs).findSome? fun mc =>
    (lit '/' mc.2).bind fun r2 =>
      (dayCands r2).findSome? fun dc =>
        (lit '/' dc.2).bind fun r4 =>
          (year4 r4).bind fun yc =>
            if yc.2 = [] then some (yc.1, mc.1, dc.1) else none

/-- Zero-pad a number to a width (strftime field formatting). -/
def pad (width n : Nat) : String :=
  let s := toString n
  String.mk (List.replicate (width - s.length) '0') ++ s

/-- `strftime("%Y-%m-%d")`. -/
def fmtISO (y m d : Nat) : String := pad 4 y ++ "-" ++ pad 2 m ++ "-" ++ pad 2 d

/-- One `datetime.strptime(value.strip(), fmt)` attempt followed by
`strftime("%Y-%m-%d")`; `none` models the caught exception. -/
def tryFormat (matcher : List Char → Option (Nat × Nat × Nat)) (t : String) :
    Option String :=
  (matcher t.data).bind fun ymd =>
    if validYMD ymd.1 ymd.2.1 ymd.2.2 then some (fmtISO ymd.1 ymd.2.1 ymd.2.2)
    else none

/-- The `for fmt in [...]` loop of `parse_excel_date`: first format that
fully parses wins. -/
def tryFormats (t : String) : Option String :=
  ((((tryFormat matchDMY4 t).orElse fun _ => tryFormat matchDMY2 t).orElse
    fun _ => tryFormat matchISO t).orElse fun _ => tryFormat matchMDY4 t)

/-! ## Cells and value parsers -/

/-- A spreadsheet cell as seen through `openpyxl` with `data_only=True`:
empty, text, numeric (int and float collapsed into `ℚ`), or a datetime
(carried as its calendar date; `strftime("%Y-%m-%d")` discards
time-of-day). -/
inductive Cell where
  | cnone : Cell
  | str : String → Cell
  | num : ℚ → Cell
  | date : Nat → Nat → Nat → Cell
deriving DecidableEq

/-- Python `int(q)`: truncation toward zero. -/
def pyTrunc (q : ℚ) : Int := q.num.tdiv q.den

/-- `datetime(1899, 12, 30) + timedelta(days=t)` rendered as ISO, `none` for
the `OverflowError` that a date outside year 1..9999 raises. -/
def excelSerialToISO (t : Int) : Option String :=
  let c := civilFromDays (daysFromCivil 1899 12 30 + t)
  if 1 ≤ c.1 ∧ c.1 ≤ 9999 then
    some (fmtISO c.1.toNat c.2.1.toNat c.2.2.toNat)
  else none

/-- `parse_excel_date` (src/scripts/legacy-data-pipeline.py lines 46-76). -/
def parse_excel_date (value : Cell) : Option String :=
  match value with
  | .cnone => none
  | .date y m d => some (fmtISO y m d)
  | .num q => excelSerialToISO (pyTrunc q)
  | .str s => if s = "" then none else tryFormats (pyStrip s)

/-- `value.strip().replace("£", "").replace("$", "").replace(",", "")`. -/
def priceCleanup (s : String) : String :=
  String.mk ((pyStrip s).data.filter fun c => !(c = '£' ∨ c = '$' ∨ c = ','))

/-- `parse_price` (lines 79-95).  `pf` is the builtin `float(str)` parser
(`none` = `ValueError`), kept as an explicit parameter of the embedding. -/
def parse_price (pf : String → Option ℚ) (value : Cell) : ℚ :=
  match value with
  | .cnone => 0
  | .str s => if s = "" then 0 else (pf (priceCleanup s)).getD 0
  | .num q => q
  | .date _ _ _ => 0

/-- String form of a numeric cell (`str(value)`); the exact float rendering
is immaterial to every claim, a faithful decimal form is used. -/
def ratStr (q : ℚ) : String := toString q

/-- `str(datetime(...))`. -/
def dateStr (y m d : Nat) : String := fmtISO y m d ++ " 00:00:00"

/-- `clean_text` (lines 98-103). -/
def clean_text (value : Cell) : String :=
  match value with
  | .cnone => ""
  | .str s => if s = "" then "" else pyStrip s
  | .num q => pyStrip (ratStr q)
  | .date y m d => pyStrip (dateStr y m d)

/-! ## Row ingestion -/

/-- A raw ledger row (the `row_dict` of `load_hope_sheet`/`load_mc_sheet`). -/
structure RawRow where
  date : Option String
  invoice_number : String
  client_raw : String
  client_status_raw : String
  supplier_raw : String
  item_raw : String
  brand_raw : String
  category_raw : String
  buy_price_raw : ℚ
  sell_price_raw : ℚ
  margin_raw : ℚ
  source : String
  row_number : Nat
deriving DecidableEq

/-- Python truthiness of a cell value, as tested by `any(row)`. -/
def cellTruthy : Cell → Bool
  | .cnone => false
  | .str s => s ≠ ""
  | .num q => q ≠ 0
  | .date _ _ _ => true

/-- `row[i] if len(row) > i else <default>`: each parser maps `cnone` to the
same default the Python conditional supplies (`None`/`""`/`0.0`). -/
def cellD (cells : List Cell) (i : Nat) : Cell := (cells.get? i).getD .cnone

/-- The `row_dict` built for one sheet row (lines 132-146 / 173-187). -/
def mkRawRow (pf : String → Option ℚ) (source : String) (idx : Nat)
    (cells : List Cell) : RawRow where
  date := parse_excel_date (cellD cells 0)
  invoice_number := clean_text (cellD cells 1)
  client_raw := clean_text (cellD cells 2)
  client_status_raw := clean_text (cellD cells 3)
  supplier_raw := clean_text (cellD cells 4)
  item_raw := clean_text (cellD cells 5)
  brand_raw := clean_text (cellD cells 6)
  category_raw := clean_text (cellD cells 7)
  buy_price_raw := parse_price pf (cellD cells 8)
  sell_price_raw := parse_price pf (cellD cells 9)
  margin_raw := parse_price pf (cellD cells 10)
  source := source
  row_number := idx

/-- The row loop shared by `load_hope_sheet` and `load_mc_sheet`
(lines 122-148): `enumerate(ws.iter_rows(values_only=True), 1)`, skip the
header row, skip rows with `not any(row)`. -/
def load_sheet (pf : String → Option ℚ) (source : String)
    (sheet : List (List Cell)) : List RawRow :=
  (sheet.enumFrom 1).filterMap fun ic =>
    if ic.1 = 1 then none
    else if ic.2.any cellTruthy then some (mkRawRow pf source ic.1 ic.2)
    else none

/-- `load_hope_sheet`, with the workbook contents passed in (file I/O is out
of scope). -/
def load_hope_sheet (pf : String → Option ℚ) (sheet : List (List Cell)) :
    List RawRow :=
  load_sheet pf "Hope" sheet

/-- `load_mc_sheet`. -/
def load_mc_sheet (pf : String → Option ℚ) (sheet : List (List Cell)) :
    List RawRow :=
  load_sheet pf "MC" sheet

/-! ## Supplier normalization -/

/-- The `SUPPLIER_AUTO_MERGE` dict (lines 31-41) as a lookup. -/
def SUPPLIER_AUTO_MERGE (s : String) : Option String :=
  if s = "Galaxy" then some "Galaxy VIC"
  else if s = "Galaxy Vic" then some "Galaxy VIC"
  else if s = "Galaxy VIC" then some "Galaxy VIC"
  else if s = "STOCK" then some "Stock (Internal)"
  else if s = "Stock" then some "Stock (Internal)"
  else if s = "In Stock" then some "Stock (Internal)"
  else if s = "Bags by Appointment" then some "Bags by Appointment"
  else if s = "Bags By Appointment" then some "Bags by Appointment"
  else if s = "BagsbyAppointment" then some "Bags by Appointment"
  else none

/-- `SUPPLIER_REQUIRES_REVIEW` (line 43). -/
def SUPPLIER_REQUIRES_REVIEW : List String := ["L19 STOCK", "LOCAL", "TSUM"]

/-- The dict returned by `normalize_supplier`; `reason` is `none` when the
key is absent. -/
structure NormResult where
  clean : String
  requires_review : Bool
  reason : Option String
deriving DecidableEq

/-- `normalize_supplier` (lines 195-209). -/
def normalize_supplier (raw_supplier : String) : NormResult :=
  if raw_supplier = "" then
    { clean := "Unknown", requires_review := true, reason := some "Empty supplier" }
  else
    match SUPPLIER_AUTO_MERGE raw_supplier with
    | some t => { clean := t, requires_review := false, reason := none }
    | none =>
      if raw_supplier ∈ SUPPLIER_REQUIRES_REVIEW then
        { clean := raw_supplier, requires_review := true,
          reason := some "Ambiguous supplier name" }
      else
        { clean := raw_supplier, requires_review := false, reason := none }

/-! ## Supplier aggregation (`build_supplier_data`, lines 212-253) -/

/-- One `supplier_audit[clean]` entry; `raw_variants`/`sources` are the
Python sets (insertion-ordered, duplicate-free) until the final conversion
sorts them. -/
structure SupAcc where
  clean_name : String
  raw_variants : List String
  sources : List String
  rows : List Nat
  requires_review : Bool
  reason : String
deriving DecidableEq

/-- The raw supplier string after the `if not raw: raw = "Unknown"`
substitution (lines 221-222). -/
def effSupplierRaw (r : RawRow) : String :=
  if r.supplier_raw = "" then "Unknown" else r.supplier_raw

/-- The fresh audit entry (lines 231-239). -/
def supInit (clean : String) (norm : NormResult) : SupAcc where
  clean_name := clean
  raw_variants := []
  sources := []
  rows := []
  requires_review := norm.requires_review
  reason := norm.reason.getD ""

/-- The per-row mutation of an audit entry (lines 241-243). -/
def supUpd (raw source : String) (rownum : Nat) (e : SupAcc) : SupAcc :=
  { e with raw_variants := addSet e.raw_variants raw,
           sources := addSet e.sources source,
           rows := e.rows ++ [rownum] }

/-- One iteration of the `for row in all_rows` loop, acting on the pair
`(supplier_map, supplier_audit)`. -/
def supStep (st : List (String × NormResult) × List (String × SupAcc))
    (r : RawRow) : List (String × NormResult) × List (String × SupAcc) :=
  let raw := effSupplierRaw r
  let norm := normalize_supplier raw
  let clean := norm.clean
  (setA raw norm st.1,
   updA clean (supUpd raw r.source r.row_number)
     (ensureA clean (supInit clean norm) st.2))

/-- The final set-to-sorted-list conversion (lines 246-248). -/
def supFinalize (e : SupAcc) : SupAcc :=
  { e with raw_variants := sortStr e.raw_variants, sources := sortStr e.sources }

/-- `build_supplier_data`: returns `(supplier_map, supplier_audit)`. -/
def build_supplier_data (all_rows : List RawRow) :
    List (String × NormResult) × List (String × SupAcc) :=
  let st := all_rows.foldl supStep ([], [])
  (st.1, st.2.map fun kv => (kv.1, supFinalize kv.2))

/-! ## Client aggregation (`build_client_data`, lines 256-308) -/

/-- One `client_audit[clean]` entry. -/
structure CliAcc where
  client_clean : String
  raw_variants : List String
  client_statuses : List String
  sources : List String
  first_seen : Option String
  last_seen : Option String
  trade_count : Nat
  requires_review : Bool
  reason : Option String
deriving DecidableEq

/-- The raw client string after the `if not raw: raw = "Unknown"`
substitution (lines 264-265). -/
def effClientRaw (r : RawRow) : String :=
  if r.client_raw = "" then "Unknown" else r.client_raw

/-- The canonical client key: `raw.lower().strip()` (line 268). -/
def clientKey (r : RawRow) : String := pyStrip (pyLower (effClientRaw r))

/-- The fresh audit entry (lines 271-281). -/
def cliInit (clean : String) : CliAcc where
  client_clean := clean
  raw_variants := []
  client_statuses := []
  sources := []
  first_seen := none
  last_seen := none
  trade_count := 0
  requires_review := false
  reason := none

/-- Python truthiness of the optional date strings. -/
def optTruthy (o : Option String) : Bool := (o.getD "") ≠ ""

/-- The per-row mutation of a client entry (lines 283-293), including the
first/last-seen tracking guarded by date truthiness. -/
def cliUpd (r : RawRow) (e : CliAcc) : CliAcc :=
  let e1 := { e with raw_variants := addSet e.raw_variants (effClientRaw r),
                     client_statuses := addSet e.client_statuses r.client_status_raw,
                     sources := addSet e.sources r.source,
                     trade_count := e.trade_count + 1 }
  match r.date with
  | none => e1
  | some d =>
    if d = "" then e1
    else
      { e1 with
        first_seen :=
          if optTruthy e1.first_seen then
            if strLtB d (e1.first_seen.getD "") then some d else e1.first_seen
          else some d,
        last_seen :=
          if optTruthy e1.last_seen then
            if strLtB (e1.last_seen.getD "") d then some d else e1.last_seen
          else some d }

/-- One iteration of the `for row in all_rows` loop. -/
def cliStep (st : List (String × CliAcc)) (r : RawRow) : List (String × CliAcc) :=
  let clean := clientKey r
  updA clean (cliUpd r) (ensureA clean (cliInit clean) st)

/-- The final conversion pass (lines 296-303): sort the sets, then flag
multiple statuses. -/
def cliFinalize (e : CliAcc) : CliAcc :=
  let sts := sortStr e.client_statuses
  let e1 := { e with raw_variants := sortStr e.raw_variants,
                     client_statuses := sts, sources := sortStr e.sources }
  if 1 < sts.length then
    { e1 with requires_review := true,
              reason := some ("Multiple statuses: " ++ pyJoin ", " sts) }
  else e1

/-- `build_client_data`. -/
def build_client_data (all_rows : List RawRow) : List (String × CliAcc) :=
  (all_rows.foldl cliStep []).map fun kv => (kv.1, cliFinalize kv.2)

/-! ## Table assembly (`build_legacy_tables`, lines 311-401) -/

structure LegacySupplier where
  id : String
  supplier_clean : String
  raw_variants : List String
  requires_review : Bool
  reason : String
  first_seen : Option String
  last_seen : Option String
  trade_count : Nat
deriving DecidableEq

structure LegacyClient where
  id : String
  client_clean : String
  raw_variants : List String
  client_status : String
  first_seen : Option String
  last_seen : Option String
  trade_count : Nat
  requires_review : Bool
deriving DecidableEq

/-- One emitted trade; `category` is an `Option` because the category
inference indexes `item_raw.split()[0]`, whose `IndexError` (only reachable
on rows not produced by the ingestor) is modelled as `none`. `raw_row` keeps
the serialized original row as structured data. -/
structure LegacyTrade where
  id : String
  invoice_number : String
  trade_date : Option String
  raw_client : String
  raw_supplier : String
  client_id : String
  supplier_id : String
  item : String
  brand : String
  category : Option String
  buy_price : ℚ
  sell_price : ℚ
  margin : ℚ
  source : String
  raw_row : RawRow
deriving DecidableEq

/-- Python `min` on a list of strings (`min(dates) if dates else None`). -/
def pyMin (l : List String) : Option String :=
  match l with
  | [] => none
  | x :: xs => some (xs.foldl (fun a b => if strLtB b a then b else a) x)

/-- Python `max`. -/
def pyMax (l : List String) : Option String :=
  match l with
  | [] => none
  | x :: xs => some (xs.foldl (fun a b => if strLtB a b then b else a) x)

/-- `[r["date"] for r in rows if r["date"]]`. -/
def rowDates (rows : List RawRow) : List String :=
  rows.filterMap fun r =>
    match r.date with
    | some d => if d = "" then none else some d
    | none => none

/-- The category inference (lines 371-377): `category_raw`, else title-cased
`brand_raw`, else title-cased first token of `item_raw`, else keep the empty
`category_raw`. -/
def inferCategoryRaw (r : RawRow) : Option String :=
  if r.category_raw ≠ "" then some r.category_raw
  else if r.brand_raw ≠ "" then some (title_case r.brand_raw)
  else if r.item_raw ≠ "" then ((pyTokens r.item_raw).head?).map title_case
  else some r.category_raw

/-- The emitted `category` field: `title_case(category)` (line 389). -/
def tradeCategory (r : RawRow) : Option String :=
  (inferCategoryRaw r).map title_case

/-- The margin back-fill (lines 367-369): `if not margin`. -/
def tradeMargin (r : RawRow) : ℚ :=
  if r.margin_raw = 0 then r.sell_price_raw - r.buy_price_raw else r.margin_raw

/-- The canonical supplier key recomputed during the join (line 360). -/
def joinSupplierClean (r : RawRow) : String :=
  (normalize_supplier r.supplier_raw).clean

/-- The canonical client key recomputed during the join (line 361). -/
def joinClientClean (r : RawRow) : String :=
  if r.client_raw = "" then "unknown" else pyStrip (pyLower r.client_raw)

/-- `supplier_id_map` (line 316): one fresh id per audit entry, keyed by its
`clean_name`. -/
def supplierIdMap (sgen : Nat → String) (supplier_audit : List (String × SupAcc)) :
    List (String × String) :=
  supplier_audit.enum.map fun ik => (ik.2.2.clean_name, sgen ik.1)

/-- `client_id_map` (line 317). -/
def clientIdMap (cgen : Nat → String) (client_audit : List (String × CliAcc)) :
    List (String × String) :=
  client_audit.enum.map fun ik => (ik.2.2.client_clean, cgen ik.1)

/-- One `legacy_suppliers` record (lines 321-338). -/
def mkLegacySupplier (idMap : List (String × String)) (all_rows : List RawRow)
    (kv : String × SupAcc) : LegacySupplier :=
  let clean := kv.2.clean_name
  let supplier_rows := all_rows.filter fun r => joinSupplierClean r = clean
  let dates := rowDates supplier_rows
  { id := (findA clean idMap).getD "",
    supplier_clean := clean,
    raw_variants := kv.2.raw_variants,
    requires_review := kv.2.requires_review,
    reason := kv.2.reason,
    first_seen := pyMin dates,
    last_seen := pyMax dates,
    trade_count := supplier_rows.length }

/-- One `legacy_clients` record (lines 342-355). -/
def mkLegacyClient (idMap : List (String × String)) (kv : String × CliAcc) :
    LegacyClient :=
  { id := (findA kv.2.client_clean idMap).getD "",
    client_clean := kv.2.client_clean,
    raw_variants := kv.2.raw_variants,
    client_status := pyJoin ", " kv.2.client_statuses,
    first_seen := kv.2.first_seen,
    last_seen := kv.2.last_seen,
    trade_count := kv.2.trade_count,
    requires_review := kv.2.requires_review }

/-- One `legacy_trades` record (lines 359-395). -/
def mkLegacyTrade (tgen : Nat → String) (supIdMap cliIdMap : List (String × String))
    (ir : Nat × RawRow) : LegacyTrade :=
  { id := tgen ir.1,
    invoice_number := ir.2.invoice_number,
    trade_date := ir.2.date,
    raw_client := ir.2.client_raw,
    raw_supplier := ir.2.supplier_raw,
    client_id := (findA (joinClientClean ir.2) cliIdMap).getD "",
    supplier_id := (findA (joinSupplierClean ir.2) supIdMap).getD "",
    item := ir.2.item_raw,
    brand := ir.2.brand_raw,
    category := tradeCategory ir.2,
    buy_price := ir.2.buy_price_raw,
    sell_price := ir.2.sell_price_raw,
    margin := tradeMargin ir.2,
    source := ir.2.source,
    raw_row := ir.2 }

/-- `build_legacy_tables`.  `sgen`/`cgen`/`tgen` stand for the successive
`uuid.uuid4()` draws for supplier ids, client ids and trade ids. -/
def build_legacy_tables (sgen cgen tgen : Nat → String) (all_rows : List RawRow)
    (supplier_audit : List (String × SupAcc)) (client_audit : List (String × CliAcc)) :
    List LegacySupplier × List LegacyClient × List LegacyTrade :=
  let supplier_id_map := supplierIdMap sgen supplier_audit
  let client_id_map := clientIdMap cgen client_audit
  (supplier_audit.map (mkLegacySupplier supplier_id_map all_rows),
   client_audit.map (mkLegacyClient client_id_map),
   all_rows.enum.map (mkLegacyTrade tgen supplier_id_map client_id_map))

/-- A live supplier seed record (`build_live_supplier_seed`, lines 404-426). -/
structure LiveSupplier where
  id : String
  supplier_name : String
  raw_variants : List String
  requires_review : Bool
  is_legacy : Bool
  created_from : String
  default_currency : String
  supplier_type : Option String
  notes : Option String
  first_seen : Option String
  last_seen : Option String
  trade_count : Nat
deriving DecidableEq

/-- `build_live_supplier_seed`. -/
def build_live_supplier_seed (legacy_suppliers : List LegacySupplier) :
    List LiveSupplier :=
  legacy_suppliers.map fun s =>
    { id := s.id,
      supplier_name := s.supplier_clean,
      raw_variants := s.raw_variants,
      requires_review := s.requires_review,
      is_legacy := true,
      created_from := "legacy-import-v1",
      default_currency := "GBP",
      supplier_type := none,
      notes := none,
      first_seen := s.first_seen,
      last_seen := s.last_seen,
      trade_count := s.trade_count }

/-- Steps 2-4 of `main` (lines 446-456): aggregation passes followed by
table assembly over the same row sequence. -/
def pipelineTables (sgen cgen tgen : Nat → String) (all_rows : List RawRow) :
    List LegacySupplier × List LegacyClient × List LegacyTrade :=
  build_legacy_tables sgen cgen tgen all_rows
    (build_supplier_data all_rows).2 (build_client_data all_rows)

/-! ## Generic association-list lemmas used by the fold characterizations -/

theorem findA_some_mem {β : Type} (k : String) (v : β) :
    ∀ (l : List (String × β)), findA k l = some v → (k, v) ∈ l
  | [], h => by simp [findA] at h
  | (k', v') :: rest, h => by
    simp only [findA] at h
    split_ifs at h with he
    · subst he
      simp only [Option.some.injEq] at h
      subst h
      exact List.mem_cons_self _ _
    · exact List.mem_cons_of_mem _ (findA_some_mem k v rest h)

theorem findA_none_iff {β : Type} (k : String) :
    ∀ (l : List (String × β)), findA k l = none ↔ k ∉ l.map Prod.fst
  | [] => by simp [findA]
  | (k', v') :: rest => by
    simp only [findA, List.map_cons, List.mem_cons]
    split_ifs with he
    · subst he
      simp
    · rw [findA_none_iff k rest]
      constructor
      · intro h hk
        rcases hk with hk | hk
        · exact he hk.symm
        · exact h hk
      · intro h hk
        exact h (Or.inr hk)

theorem findA_of_mem_nodupKeys {β : Type} (k : String) (v : β) :
    ∀ (l : List (String × β)), (l.map Prod.fst).Nodup → (k, v) ∈ l →
    findA k l = some v
  | [], _, hm => by simp at hm
  | (k', v') :: rest, hn, hm => by
    simp only [List.map_cons, List.nodup_cons] at hn
    rcases List.mem_cons.mp hm with he | hm'
    · have h1 : k = k' := congrArg Prod.fst he
      have h2 : v = v' := congrArg Prod.snd he
      simp [findA, h1.symm, h2]
    · have hne : k' ≠ k := by
        intro he'
        subst he'
        exact hn.1 (List.mem_map.mpr ⟨(k', v), hm', rfl⟩)
      simp only [findA, if_neg hne]
      exact findA_of_mem_nodupKeys k v rest hn.2 hm'

theorem findA_isSome_of_key_mem {β : Type} (k : String) :
    ∀ (l : List (String × β)), k ∈ l.map Prod.fst → (findA k l).isSome
  | [], h => by simp at h
  | (k', v') :: rest, h => by
    simp only [List.map_cons, List.mem_cons] at h
    simp only [findA]
    split_ifs with he
    · rfl
    · rcases h with h1 | h1
      · exact absurd h1.symm he
      · exact findA_isSome_of_key_mem k rest h1

theorem keys_updA {β : Type} (k : String) (f : β → β) :
    ∀ (l : List (String × β)), (updA k f l).map Prod.fst = l.map Prod.fst
  | [] => rfl
  | (k', v') :: rest => by
    simp only [updA]
    split_ifs with he <;> simp [keys_updA k f rest]

theorem keys_ensureA {β : Type} (k : String) (init : β) (l : List (String × β)) :
    (ensureA k init l).map Prod.fst =
      if hasKey k l then l.map Prod.fst else l.map Prod.fst ++ [k] := by
  unfold ensureA
  split_ifs <;> simp

theorem nodup_keys_ensureA {β : Type} (k : String) (init : β)
    (l : List (String × β)) (h : (l.map Prod.fst).Nodup) :
    ((ensureA k init l).map Prod.fst).Nodup := by
  rw [keys_ensureA]
  split_ifs with hk
  · exact h
  · have : k ∉ l.map Prod.fst := by
      rw [← findA_none_iff]
      unfold hasKey at hk
      cases hf : findA k l
      · rfl
      · rw [hf] at hk
        simp at hk
    refine List.Nodup.append h (List.nodup_singleton k) ?_
    intro x hx hk'
    rw [List.mem_singleton] at hk'
    subst hk'
    exact this hx

theorem findA_map_snd {β γ : Type} (k : String) (f : β → γ) :
    ∀ (l : List (String × β)),
    findA k (l.map fun kv => (kv.1, f kv.2)) = (findA k l).map f
  | [] => rfl
  | (k', v') :: rest => by
    simp only [List.map_cons, findA]
    split_ifs with he
    · rfl
    · exact findA_map_snd k f rest

theorem keys_idMap {β : Type} (name : β → String) (gen : Nat → String) :
    ∀ (l : List β) (i : Nat),
    ((l.enumFrom i).map fun ik => (name ik.2, gen ik.1)).map Prod.fst = l.map name
  | [], _ => rfl
  | b :: rest, i => by
    simp only [List.enumFrom, List.map_cons]
    rw [keys_idMap name gen rest (i + 1)]

/-! ## Characterizing the client aggregation fold -/

/-- The rows that fold into the client group keyed `k`. -/
def cliGroup (k : String) (rows : List RawRow) : List RawRow :=
  rows.filter fun r => clientKey r = k

/-- Folding a whole group of rows into one audit entry. -/
def cliBulk (e : CliAcc) (G : List RawRow) : CliAcc :=
  G.foldl (fun acc r => cliUpd r acc) e

/-- The shape of a looked-up entry after the fold. -/
def cliAfter (o : Option CliAcc) (k : String) (G : List RawRow) : Option CliAcc :=
  match o with
  | some e => some (cliBulk e G)
  | none => if G = [] then none else some (cliBulk (cliInit k) G)

theorem findA_cliFold (k : String) :
    ∀ (rows : List RawRow) (acc : List (String × CliAcc)),
    findA k (rows.foldl cliStep acc) = cliAfter (findA k acc) k (cliGroup k rows)
  | [], acc => by
    show findA k acc = cliAfter (findA k acc) k (cliGroup k [])
    unfold cliGroup
    simp only [List.filter_nil]
    cases findA k acc <;> simp [cliAfter, cliBulk]
  | r :: rest, acc => by
    rw [List.foldl_cons, findA_cliFold k rest (cliStep acc r)]
    unfold cliGroup
    by_cases hk : clientKey r = k
    · rw [List.filter_cons_of_pos (by simpa using hk)]
      have hstep : findA k (cliStep acc r) =
          some (cliUpd r ((findA k acc).getD (cliInit k))) := by
        unfold cliStep
        rw [hk, findA_updA, if_pos rfl, findA_ensureA_self]
        simp
      rw [hstep]
      unfold cliAfter
      cases hacc : findA k acc
      · simp only [Option.getD_none]
        rw [if_neg (by simp)]
        rfl
      · rfl
    · rw [List.filter_cons_of_neg (by simpa using hk)]
      have hstep : findA k (cliStep acc r) = findA k acc := by
        unfold cliStep
        rw [findA_updA, if_neg hk, findA_ensureA_other hk]
      rw [hstep]

theorem cliUpd_client_clean (r : RawRow) (e : CliAcc) :
    (cliUpd r e).client_clean = e.client_clean := by
  unfold cliUpd
  cases r.date <;> simp <;> split_ifs <;> rfl

theorem cliUpd_client_statuses (r : RawRow) (e : CliAcc) :
    (cliUpd r e).client_statuses = addSet e.client_statuses r.client_status_raw := by
  unfold cliUpd
  cases r.date <;> simp <;> split_ifs <;> rfl

theorem cliUpd_raw_variants (r : RawRow) (e : CliAcc) :
    (cliUpd r e).raw_variants = addSet e.raw_variants (effClientRaw r) := by
  unfold cliUpd
  cases r.date <;> simp <;> split_ifs <;> rfl

theorem cliUpd_sources (r : RawRow) (e : CliAcc) :
    (cliUpd r e).sources = addSet e.sources r.source := by
  unfold cliUpd
  cases r.date <;> simp <;> split_ifs <;> rfl

theorem cliUpd_trade_count (r : RawRow) (e : CliAcc) :
    (cliUpd r e).trade_count = e.trade_count + 1 := by
  unfold cliUpd
  cases r.date <;> simp <;> split_ifs <;> rfl

theorem cliUpd_requires_review (r : RawRow) (e : CliAcc) :
    (cliUpd r e).requires_review = e.requires_review := by
  unfold cliUpd
  cases r.date <;> simp <;> split_ifs <;> rfl

theorem cliUpd_reason (r : RawRow) (e : CliAcc) :
    (cliUpd r e).reason = e.reason := by
  unfold cliUpd
  cases r.date <;> simp <;> split_ifs <;> rfl

theorem cliBulk_client_clean (G : List RawRow) :
    ∀ (e : CliAcc), (cliBulk e G).client_clean = e.client_clean := by
  induction G with
  | nil => intro e; rfl
  | cons r rest ih =>
    intro e
    show (cliBulk (cliUpd r e) rest).client_clean = _
    rw [ih (cliUpd r e), cliUpd_client_clean]

theorem cliBulk_client_statuses (G : List RawRow) :
    ∀ (e : CliAcc), (cliBulk e G).client_statuses =
      (G.map fun r => r.client_status_raw).foldl addSet e.client_statuses := by
  induction G with
  | nil => intro e; rfl
  | cons r rest ih =>
    intro e
    show (cliBulk (cliUpd r e) rest).client_statuses = _
    rw [ih (cliUpd r e), cliUpd_client_statuses]
    rfl

theorem cliBulk_raw_variants (G : List RawRow) :
    ∀ (e : CliAcc), (cliBulk e G).raw_variants =
      (G.map effClientRaw).foldl addSet e.raw_variants := by
  induction G with
  | nil => intro e; rfl
  | cons r rest ih =>
    intro e
    show (cliBulk (cliUpd r e) rest).raw_variants = _
    rw [ih (cliUpd r e), cliUpd_raw_variants]
    rfl

theorem cliBulk_sources (G : List RawRow) :
    ∀ (e : CliAcc), (cliBulk e G).sources =
      (G.map fun r => r.source).foldl addSet e.sources := by
  induction G with
  | nil => intro e; rfl
  | cons r rest ih =>
    intro e
    show (cliBulk (cliUpd r e) rest).sources = _
    rw [ih (cliUpd r e), cliUpd_sources]
    rfl

theorem cliBulk_trade_count (G : List RawRow) :
    ∀ (e : CliAcc), (cliBulk e G).trade_count = e.trade_count + G.length := by
  induction G with
  | nil => intro e; rfl
  | cons r rest ih =>
    intro e
    show (cliBulk (cliUpd r e) rest).trade_count = _
    rw [ih (cliUpd r e), cliUpd_trade_count, List.length_cons]
    omega

theorem cliBulk_requires_review (G : List RawRow) :
    ∀ (e : CliAcc), (cliBulk e G).requires_review = e.requires_review := by
  induction G with
  | nil => intro e; rfl
  | cons r rest ih =>
    intro e
    show (cliBulk (cliUpd r e) rest).requires_review = _
    rw [ih (cliUpd r e), cliUpd_requires_review]

/-! ## Characterizing the supplier aggregation fold -/

/-- The map component of one `build_supplier_data` loop iteration. -/
def supStepM (m : List (String × NormResult)) (r : RawRow) :
    List (String × NormResult) :=
  setA (effSupplierRaw r) (normalize_supplier (effSupplierRaw r)) m

/-- The audit component of one `build_supplier_data` loop iteration. -/
def supStepA (a : List (String × SupAcc)) (r : RawRow) : List (String × SupAcc) :=
  let raw := effSupplierRaw r
  let norm := normalize_supplier raw
  updA norm.clean (supUpd raw r.source r.row_number)
    (ensureA norm.clean (supInit norm.clean norm) a)

theorem supFold_components :
    ∀ (rows : List RawRow) (st : List (String × NormResult) × List (String × SupAcc)),
    rows.foldl supStep st = (rows.foldl supStepM st.1, rows.foldl supStepA st.2)
  | [], st => rfl
  | r :: rest, st => by
    rw [List.foldl_cons, supFold_components rest (supStep st r)]
    rfl

/-- The canonical supplier key used during aggregation. -/
def aggSupplierClean (r : RawRow) : String :=
  (normalize_supplier (effSupplierRaw r)).clean

theorem effSupplierRaw_ne (r : RawRow) : effSupplierRaw r ≠ "" := by
  unfold effSupplierRaw
  split_ifs with h
  · decide
  · exact h

theorem effClientRaw_ne (r : RawRow) : effClientRaw r ≠ "" := by
  unfold effClientRaw
  split_ifs with h
  · decide
  · exact h

theorem merge_target {raw t : String} (hm : SUPPLIER_AUTO_MERGE raw = some t) :
    t = "Galaxy VIC" ∨ t = "Stock (Internal)" ∨ t = "Bags by Appointment" := by
  unfold SUPPLIER_AUTO_MERGE at hm
  split_ifs at hm <;> simp_all

/-- Re-normalizing a canonical supplier name reproduces the original
classification: the merge table maps each of its three targets to itself (or
passes it through), and nothing else folds onto a review-listed name. -/
theorem normalize_supplier_idem (raw : String) (h : raw ≠ "") :
    normalize_supplier ((normalize_supplier raw).clean) = normalize_supplier raw := by
  cases hm : SUPPLIER_AUTO_MERGE raw with
  | none =>
    have hexp : normalize_supplier raw =
        (if raw ∈ SUPPLIER_REQUIRES_REVIEW then
          { clean := raw, requires_review := true,
            reason := some "Ambiguous supplier name" }
         else { clean := raw, requires_review := false, reason := none }) := by
      unfold normalize_supplier
      rw [if_neg h, hm]
    rw [hexp]
    split_ifs with hr
    · show normalize_supplier raw = _
      rw [hexp, if_pos hr]
    · show normalize_supplier raw = _
      rw [hexp, if_neg hr]
  | some t =>
    have hexp : normalize_supplier raw =
        { clean := t, requires_review := false, reason := none } := by
      unfold normalize_supplier
      rw [if_neg h, hm]
    rw [hexp]
    show normalize_supplier t = _
    rcases merge_target hm with rfl | rfl | rfl <;> decide

/-- Aggregation and the final join compute the same canonical supplier name
for every row. -/
theorem supplier_clean_agree (r : RawRow) :
    aggSupplierClean r = joinSupplierClean r := by
  unfold aggSupplierClean joinSupplierClean effSupplierRaw
  split_ifs with h
  · rw [h]
    decide
  · rfl

/-- Aggregation and the final join compute the same canonical client key for
every row. -/
theorem client_clean_agree (r : RawRow) :
    clientKey r = joinClientClean r := by
  unfold clientKey joinClientClean effClientRaw
  split_ifs with h
  · decide
  · rfl

theorem findA_supMapFold (s : String) :
    ∀ (rows : List RawRow) (m : List (String × NormResult)),
    findA s (rows.foldl supStepM m) =
      if rows.any fun r => effSupplierRaw r = s then some (normalize_supplier s)
      else findA s m
  | [], m => by simp
  | r :: rest, m => by
    rw [List.foldl_cons, findA_supMapFold s rest (supStepM m r)]
    by_cases he : effSupplierRaw r = s
    · have hstep : findA s (supStepM m r) = some (normalize_supplier s) := by
        unfold supStepM
        rw [he, findA_setA_self]
      rw [hstep]
      simp [he]
    · have hstep : findA s (supStepM m r) = findA s m := by
        unfold supStepM
        exact findA_setA_other he _ m
      rw [hstep]
      simp [he]

/-- The rows that fold into the supplier group keyed `k`. -/
def supGroup (k : String) (rows : List RawRow) : List RawRow :=
  rows.filter fun r => aggSupplierClean r = k

/-- Folding a whole group of rows into one supplier audit entry. -/
def supBulk (e : SupAcc) (G : List RawRow) : SupAcc :=
  G.foldl (fun acc r => supUpd (effSupplierRaw r) r.source r.row_number acc) e

/-- The shape of a looked-up supplier entry after the fold. -/
def supAfter (o : Option SupAcc) (k : String) (G : List RawRow) : Option SupAcc :=
  match o with
  | some e => some (supBulk e G)
  | none =>
    if G = [] then none
    else some (supBulk (supInit k (normalize_supplier k)) G)

theorem findA_supAFold (k : String) :
    ∀ (rows : List RawRow) (acc : List (String × SupAcc)),
    findA k (rows.foldl supStepA acc) = supAfter (findA k acc) k (supGroup k rows)
  | [], acc => by
    show findA k acc = supAfter (findA k acc) k (supGroup k [])
    unfold supGroup
    simp only [List.filter_nil]
    cases findA k acc <;> simp [supAfter, supBulk]
  | r :: rest, acc => by
    rw [List.foldl_cons, findA_supAFold k rest (supStepA acc r)]
    unfold supGroup
    by_cases hk : aggSupplierClean r = k
    · rw [List.filter_cons_of_pos (by simpa using hk)]
      have hnorm : normalize_supplier k = normalize_supplier (effSupplierRaw r) := by
        rw [← hk]
        exact normalize_supplier_idem _ (effSupplierRaw_ne r)
      have hstep : findA k (supStepA acc r) =
          some (supUpd (effSupplierRaw r) r.source r.row_number
            ((findA k acc).getD (supInit k (normalize_supplier k)))) := by
        unfold supStepA
        have hck : (normalize_supplier (effSupplierRaw r)).clean = k := hk
        show findA k
            (updA (normalize_supplier (effSupplierRaw r)).clean
              (supUpd (effSupplierRaw r) r.source r.row_number)
              (ensureA (normalize_supplier (effSupplierRaw r)).clean
                (supInit (normalize_supplier (effSupplierRaw r)).clean
                  (normalize_supplier (effSupplierRaw r))) acc)) = _
        rw [hck, findA_updA, if_pos rfl, findA_ensureA_self, ← hnorm]
        simp
      rw [hstep]
      unfold supAfter
      cases hacc : findA k acc
      · simp only [Option.getD_none]
        rw [if_neg (by simp)]
        rfl
      · rfl
    · rw [List.filter_cons_of_neg (by simpa using hk)]
      have hstep : findA k (supStepA acc r) = findA k acc := by
        unfold supStepA
        have hck : (normalize_supplier (effSupplierRaw r)).clean ≠ k := hk
        show findA k
            (updA (normalize_supplier (effSupplierRaw r)).clean
              (supUpd (effSupplierRaw r) r.source r.row_number)
              (ensureA (normalize_supplier (effSupplierRaw r)).clean
                (supInit (normalize_supplier (effSupplierRaw r)).clean
                  (normalize_supplier (effSupplierRaw r))) acc)) = _
        rw [findA_updA, if_neg hck, findA_ensureA_other hck]
      rw [hstep]

theorem supBulk_clean_name (G : List RawRow) :
    ∀ (e : SupAcc), (supBulk e G).clean_name = e.clean_name := by
  induction G with
  | nil => intro e; rfl
  | cons r rest ih =>
    intro e
    show (supBulk (supUpd (effSupplierRaw r) r.source r.row_number e) rest).clean_name = _
    rw [ih]
    rfl

theorem supBulk_requires_review (G : List RawRow) :
    ∀ (e : SupAcc), (supBulk e G).requires_review = e.requires_review := by
  induction G with
  | nil => intro e; rfl
  | cons r rest ih =>
    intro e
    show (supBulk (supUpd (effSupplierRaw r) r.source r.row_number e) rest).requires_review = _
    rw [ih]
    rfl

theorem supBulk_reason (G : List RawRow) :
    ∀ (e : SupAcc), (supBulk e G).reason = e.reason := by
  induction G with
  | nil => intro e; rfl
  | cons r rest ih =>
    intro e
    show (supBulk (supUpd (effSupplierRaw r) r.source r.row_number e) rest).reason = _
    rw [ih]
    rfl

theorem supBulk_raw_variants (G : List RawRow) :
    ∀ (e : SupAcc), (supBulk e G).raw_variants =
      (G.map effSupplierRaw).foldl addSet e.raw_variants := by
  induction G with
  | nil => intro e; rfl
  | cons r rest ih =>
    intro e
    show (supBulk (supUpd (effSupplierRaw r) r.source r.row_number e) rest).raw_variants = _
    rw [ih]
    rfl

theorem supBulk_sources (G : List RawRow) :
    ∀ (e : SupAcc), (supBulk e G).sources =
      (G.map fun r => r.source).foldl addSet e.sources := by
  induction G with
  | nil => intro e; rfl
  | cons r rest ih =>
    intro e
    show (supBulk (supUpd (effSupplierRaw r) r.source r.row_number e) rest).sources = _
    rw [ih]
    rfl

/-! ## Lookup characterizations of the emitted audit tables -/

theorem keys_map_snd {β γ : Type} (f : β → γ) (l : List (String × β)) :
    (l.map fun kv => (kv.1, f kv.2)).map Prod.fst = l.map Prod.fst := by
  rw [List.map_map]
  rfl

theorem nodup_keys_supAFold :
    ∀ (rows : List RawRow) (acc : List (String × SupAcc)),
    (acc.map Prod.fst).Nodup → ((rows.foldl supStepA acc).map Prod.fst).Nodup
  | [], _, h => h
  | r :: rest, acc, h => by
    rw [List.foldl_cons]
    refine nodup_keys_supAFold rest _ ?_
    unfold supStepA
    show ((updA (normalize_supplier (effSupplierRaw r)).clean
      (supUpd (effSupplierRaw r) r.source r.row_number)
      (ensureA (normalize_supplier (effSupplierRaw r)).clean
        (supInit (normalize_supplier (effSupplierRaw r)).clean
          (normalize_supplier (effSupplierRaw r))) acc)).map Prod.fst).Nodup
    rw [keys_updA]
    exact nodup_keys_ensureA _ _ acc h

theorem nodup_keys_cliFold :
    ∀ (rows : List RawRow) (acc : List (String × CliAcc)),
    (acc.map Prod.fst).Nodup → ((rows.foldl cliStep acc).map Prod.fst).Nodup
  | [], _, h => h
  | r :: rest, acc, h => by
    rw [List.foldl_cons]
    refine nodup_keys_cliFold rest _ ?_
    unfold cliStep
    show ((updA (clientKey r) (cliUpd r)
      (ensureA (clientKey r) (cliInit (clientKey r)) acc)).map Prod.fst).Nodup
    rw [keys_updA]
    exact nodup_keys_ensureA _ _ acc h

theorem build_supplier_data_fst (rows : List RawRow) :
    (build_supplier_data rows).1 = rows.foldl supStepM [] := by
  unfold build_supplier_data
  rw [supFold_components]

theorem build_supplier_data_snd (rows : List RawRow) :
    (build_supplier_data rows).2 =
      (rows.foldl supStepA []).map fun kv => (kv.1, supFinalize kv.2) := by
  unfold build_supplier_data
  rw [supFold_components]

/-- What any key resolves to in the final supplier audit table. -/
theorem supplier_audit_lookup (rows : List RawRow) (k : String) :
    findA k (build_supplier_data rows).2 =
      if supGroup k rows = [] then none
      else some (supFinalize
        (supBulk (supInit k (normalize_supplier k)) (supGroup k rows))) := by
  rw [build_supplier_data_snd, findA_map_snd, findA_supAFold k rows []]
  show (supAfter none k (supGroup k rows)).map supFinalize = _
  unfold supAfter
  split_ifs with hG <;> simp

/-- What any key resolves to in the final client audit table. -/
theorem client_audit_lookup (rows : List RawRow) (k : String) :
    findA k (build_client_data rows) =
      if cliGroup k rows = [] then none
      else some (cliFinalize (cliBulk (cliInit k) (cliGroup k rows))) := by
  unfold build_client_data
  rw [findA_map_snd, findA_cliFold k rows []]
  show (cliAfter none k (cliGroup k rows)).map cliFinalize = _
  unfold cliAfter
  split_ifs with hG <;> simp

theorem findA_of_mem_supplier_audit {rows : List RawRow} {k : String} {e : SupAcc}
    (hm : (k, e) ∈ (build_supplier_data rows).2) :
    findA k (build_supplier_data rows).2 = some e := by
  apply findA_of_mem_nodupKeys _ _ _ _ hm
  rw [build_supplier_data_snd, keys_map_snd]
  exact nodup_keys_supAFold rows [] (by simp)

theorem findA_of_mem_client_audit {rows : List RawRow} {k : String} {e : CliAcc}
    (hm : (k, e) ∈ build_client_data rows) :
    findA k (build_client_data rows) = some e := by
  apply findA_of_mem_nodupKeys _ _ _ _ hm
  unfold build_client_data
  rw [keys_map_snd]
  exact nodup_keys_cliFold rows [] (by simp)

/-! ## Tokenizer and title-case lemmas -/

theorem strMk_data (s : String) : String.mk s.data = s := by
  cases s
  rfl

theorem strMk_eq_empty {l : List Char} (h : String.mk l = "") : l = [] :=
  congrArg String.data h

theorem head_dropWhile_false (p : Char → Bool) :
    ∀ (l : List Char) (c : Char) (rest : List Char),
    l.dropWhile p = c :: rest → p c = false
  | [], c, rest, h => by simp at h
  | c' :: l, c, rest, h => by
    rw [List.dropWhile_cons] at h
    split_ifs at h with hp
    · exact head_dropWhile_false p l c rest h
    · cases h
      simpa using hp

theorem tokAux_ne_nil :
    ∀ (l cur : List Char), (∃ c ∈ l, isPySpace c = false) ∨ cur ≠ [] →
    tokAux l cur ≠ []
  | [], cur, h => by
    rcases h with h | h
    · simp at h
    · simp [tokAux, h]
  | c :: l, cur, h => by
    unfold tokAux
    by_cases hsp : isPySpace c = true
    · rw [if_pos hsp]
      by_cases hcur : cur = []
      · rw [if_pos hcur]
        refine tokAux_ne_nil l [] (Or.inl ?_)
        rcases h with ⟨c', hc', hns⟩ | hc
        · rcases List.mem_cons.mp hc' with rfl | hmem
          · rw [hsp] at hns
            cases hns
          · exact ⟨c', hmem, hns⟩
        · exact absurd hcur hc
      · rw [if_neg hcur]
        simp
    · rw [if_neg hsp]
      exact tokAux_ne_nil l (c :: cur) (Or.inr (by simp))

theorem pyStrip_tokens_ne {s : String} (h : pyStrip s ≠ "") :
    pyTokens (pyStrip s) ≠ [] := by
  unfold pyTokens
  unfold pyStrip at h ⊢
  cases hd : ((s.data.reverse.dropWhile isPySpace).reverse).dropWhile isPySpace with
  | nil => exact absurd (by simp [hd]) h
  | cons c rest =>
    simp only [hd]
    exact tokAux_ne_nil _ []
      (Or.inl ⟨c, List.mem_cons_self c rest, head_dropWhile_false _ _ c rest hd⟩)

theorem clean_text_tokens_ne {c : Cell} (h : clean_text c ≠ "") :
    pyTokens (clean_text c) ≠ [] := by
  cases c with
  | cnone => exact absurd rfl h
  | str s =>
    simp only [clean_text] at h ⊢
    by_cases hs : s = ""
    · rw [if_pos hs] at h
      exact absurd rfl h
    · rw [if_neg hs] at h ⊢
      exact pyStrip_tokens_ne h
  | num q =>
    simp only [clean_text] at h ⊢
    exact pyStrip_tokens_ne h
  | date y m d =>
    simp only [clean_text] at h ⊢
    exact pyStrip_tokens_ne h

theorem tokAux_tokens_prop :
    ∀ (l cur : List Char), (∀ c ∈ cur, isPySpace c = false) →
    ∀ w ∈ tokAux l cur, w ≠ "" ∧ ∀ c ∈ w.data, isPySpace c = false
  | [], cur, hcur => by
    unfold tokAux
    split_ifs with hc
    · simp
    · intro w hw
      rcases List.mem_singleton.mp hw with rfl
      refine ⟨fun he => hc (by simpa using strMk_eq_empty he), ?_⟩
      intro c hcmem
      exact hcur c (by simpa using hcmem)
  | c :: l, cur, hcur => by
    unfold tokAux
    split_ifs with hsp hc
    · exact tokAux_tokens_prop l [] (by simp)
    · intro w hw
      rcases List.mem_cons.mp hw with rfl | hw'
      · refine ⟨fun he => hc (by simpa using strMk_eq_empty he), ?_⟩
        intro c' hcmem
        exact hcur c' (by simpa using hcmem)
      · exact tokAux_tokens_prop l [] (by simp) w hw'
    · refine tokAux_tokens_prop l (c :: cur) ?_
      intro c' hc'
      rcases List.mem_cons.mp hc' with rfl | hc'
      · simpa using hsp
      · exact hcur c' hc'

theorem tokAux_cons_space_nil (c : Char) (l : List Char)
    (hsp : isPySpace c = true) : tokAux (c :: l) [] = tokAux l [] := by
  rw [tokAux.eq_2, if_pos hsp, if_pos rfl]

theorem tokAux_cons_space (c : Char) (l cur : List Char)
    (hsp : isPySpace c = true) (hc : cur ≠ []) :
    tokAux (c :: l) cur = String.mk cur.reverse :: tokAux l [] := by
  rw [tokAux.eq_2, if_pos hsp, if_neg hc]

theorem tokAux_cons_nonspace (c : Char) (l cur : List Char)
    (hsp : isPySpace c = false) : tokAux (c :: l) cur = tokAux l (c :: cur) := by
  rw [tokAux.eq_2, if_neg (by simp [hsp])]

theorem tokAux_all_nonspace :
    ∀ (l cur : List Char), (∀ c ∈ l, isPySpace c = false) →
    tokAux l cur = if cur = [] ∧ l = [] then [] else [String.mk (cur.reverse ++ l)]
  | [], cur, _ => by
    by_cases hc : cur = []
    · rw [if_pos ⟨hc, rfl⟩, hc]
      rfl
    · rw [if_neg (by simp [hc]), tokAux.eq_1, if_neg hc]
      simp
  | c :: l, cur, h => by
    have hcs : isPySpace c = false := h c (List.mem_cons_self c l)
    rw [tokAux_cons_nonspace c l cur hcs]
    rw [tokAux_all_nonspace l (c :: cur) fun c' hc' => h c' (List.mem_cons_of_mem c hc')]
    rw [if_neg (by simp), if_neg (by simp)]
    simp

theorem pyTokens_single {w : String} (hne : w ≠ "")
    (hsf : ∀ c ∈ w.data, isPySpace c = false) : pyTokens w = [w] := by
  unfold pyTokens
  rw [tokAux_all_nonspace w.data [] hsf]
  have hd : w.data ≠ [] := by
    intro hd
    apply hne
    rw [← strMk_data w, hd]
  rw [if_neg (by simp [hd])]
  simp [strMk_data]

theorem tokAux_append_space :
    ∀ (l cur rest' : List Char), (∀ c ∈ l, isPySpace c = false) →
    ¬(cur = [] ∧ l = []) →
    tokAux (l ++ ' ' :: rest') cur = String.mk (cur.reverse ++ l) :: tokAux rest' []
  | [], cur, rest', _, hne => by
    have hcur : cur ≠ [] := fun h => hne ⟨h, rfl⟩
    rw [List.nil_append]
    rw [tokAux_cons_space ' ' rest' cur (by decide) hcur]
    simp
  | c :: l, cur, rest', h, _ => by
    have hcs : isPySpace c = false := h c (List.mem_cons_self c l)
    rw [List.cons_append, tokAux_cons_nonspace c _ cur hcs]
    rw [tokAux_append_space l (c :: cur) rest'
      (fun c' hc' => h c' (List.mem_cons_of_mem c hc')) (by simp)]
    simp

theorem pyTokens_join :
    ∀ (ws : List String), (∀ w ∈ ws, w ≠ "" ∧ ∀ c ∈ w.data, isPySpace c = false) →
    pyTokens (pyJoin " " ws) = ws
  | [], _ => rfl
  | [w], h => by
    unfold pyJoin
    exact pyTokens_single (h w (by simp)).1 (h w (by simp)).2
  | w :: w' :: ws, h => by
    show pyTokens (w ++ " " ++ pyJoin " " (w' :: ws)) = _
    unfold pyTokens
    have hdata : (w ++ " " ++ pyJoin " " (w' :: ws)).data =
        w.data ++ ' ' :: (pyJoin " " (w' :: ws)).data := by
      rw [String.data_append, String.data_append, List.append_assoc]
      rfl
    rw [hdata]
    have hwd : w.data ≠ [] := by
      intro hd
      apply (h w (by simp)).1
      rw [← strMk_data w, hd]
    rw [tokAux_append_space w.data [] (pyJoin " " (w' :: ws)).data
      (h w (by simp)).2 (by simp [hwd])]
    rw [List.reverse_nil, List.nil_append, strMk_data]
    have := pyTokens_join (w' :: ws) fun x hx => h x (List.mem_cons_of_mem w hx)
    unfold pyTokens at this
    rw [this]

theorem pyCapitalize_ne {w : String} (h : w ≠ "") : pyCapitalize w ≠ "" := by
  cases hd : w.data with
  | nil =>
    exfalso
    apply h
    rw [← strMk_data w, hd]
  | cons c cs =>
    simp only [pyCapitalize, hd]
    intro he
    cases strMk_eq_empty he

theorem pyCapitalize_nonspace {w : String}
    (hsf : ∀ c ∈ w.data, isPySpace c = false) :
    ∀ c ∈ (pyCapitalize w).data, isPySpace c = false := by
  cases hd : w.data with
  | nil =>
    simp only [pyCapitalize, hd]
    intro c hc
    simp at hc
  | cons c cs =>
    simp only [pyCapitalize, hd]
    intro c' hc'
    have hc2 : c' = upChar c ∨ ∃ a ∈ cs, lowChar a = c' := by simpa using hc'
    rcases hc2 with rfl | ⟨c0, hc0, rfl⟩
    · rw [isPySpace_upChar]
      exact hsf c (hd ▸ List.mem_cons_self c cs)
    · rw [isPySpace_lowChar]
      exact hsf c0 (hd ▸ List.mem_cons_of_mem c hc0)

theorem pyCapitalize_idem (w : String) : pyCapitalize (pyCapitalize w) = pyCapitalize w := by
  cases hd : w.data with
  | nil =>
    have hw : pyCapitalize w = "" := by
      simp only [pyCapitalize, hd]
    rw [hw]
    rfl
  | cons c cs =>
    have hw : pyCapitalize w = String.mk (upChar c :: cs.map lowChar) := by
      simp only [pyCapitalize, hd]
    rw [hw]
    show String.mk (upChar (upChar c) :: (cs.map lowChar).map lowChar) = _
    rw [upChar_idem, List.map_map]
    have h2 : lowChar ∘ lowChar = lowChar := funext lowChar_idem
    rw [h2]

theorem title_case_tokens (x : String) :
    pyTokens (title_case x) = (pyTokens x).map pyCapitalize := by
  unfold title_case
  split_ifs with hx
  · subst hx
    rfl
  · apply pyTokens_join
    intro w hw
    rcases List.mem_map.mp hw with ⟨w0, hw0, rfl⟩
    have hp := tokAux_tokens_prop x.data [] (by simp) w0 hw0
    exact ⟨pyCapitalize_ne hp.1, pyCapitalize_nonspace hp.2⟩

theorem title_case_ne {x : String} (h : x ≠ "") :
    title_case x = pyJoin " " ((pyTokens x).map pyCapitalize) := by
  unfold title_case
  rw [if_neg h]

theorem title_case_idem (x : String) : title_case (title_case x) = title_case x := by
  by_cases hx : x = ""
  · subst hx
    rfl
  · by_cases ht : title_case x = ""
    · rw [ht]
      rfl
    · rw [title_case_ne ht, title_case_tokens, List.map_map]
      have h2 : pyCapitalize ∘ pyCapitalize = pyCapitalize := funext pyCapitalize_idem
      rw [h2]
      exact (title_case_ne hx).symm

/-! ## The claims -/

/-- A stand-in instantiation of the `float(str)` parameter for closed
examples; which function is used is irrelevant to each of them. -/
def pyFloatStub : String → Option ℚ := fun _ => none

/-- C1: `normalize_supplier` applies its four rules in priority order for
every raw supplier string: empty input yields the Unknown/review result;
otherwise an exact merge-table hit yields the mapped canonical name without
review; otherwise an exact review-list hit yields the raw string with
review reason "Ambiguous supplier name"; otherwise the raw string passes
through without review. -/
theorem c1_normalize_supplier_rules (s : String) :
    (s = "" → normalize_supplier s =
      { clean := "Unknown", requires_review := true, reason := some "Empty supplier" }) ∧
    (∀ t : String, s ≠ "" → SUPPLIER_AUTO_MERGE s = some t →
      normalize_supplier s = { clean := t, requires_review := false, reason := none }) ∧
    (s ≠ "" → SUPPLIER_AUTO_MERGE s = none → s ∈ SUPPLIER_REQUIRES_REVIEW →
      normalize_supplier s =
        { clean := s, requires_review := true, reason := some "Ambiguous supplier name" }) ∧
    (s ≠ "" → SUPPLIER_AUTO_MERGE s = none → s ∉ SUPPLIER_REQUIRES_REVIEW →
      normalize_supplier s = { clean := s, requires_review := false, reason := none }) := by
  refine ⟨?_, ?_, ?_, ?_⟩
  · intro h
    simp [normalize_supplier, h]
  · intro t h hm
    simp [normalize_supplier, h, hm]
  · intro h hm hr
    simp [normalize_supplier, h, hm, hr]
  · intro h hm hr
    simp [normalize_supplier, h, hm, hr]

/-- Witness for C1: each guarded rule applied at a concrete input. -/
theorem c1_normalize_supplier_rules_witness :
    (("Galaxy" : String) ≠ "" ∧ SUPPLIER_AUTO_MERGE "Galaxy" = some "Galaxy VIC" ∧
      normalize_supplier "Galaxy" =
        { clean := "Galaxy VIC", requires_review := false, reason := none }) ∧
    (("L19 STOCK" : String) ≠ "" ∧ SUPPLIER_AUTO_MERGE "L19 STOCK" = none ∧
      "L19 STOCK" ∈ SUPPLIER_REQUIRES_REVIEW ∧
      normalize_supplier "L19 STOCK" =
        { clean := "L19 STOCK", requires_review := true,
          reason := some "Ambiguous supplier name" }) :=
  ⟨⟨by decide, by decide,
    (c1_normalize_supplier_rules "Galaxy").2.1 "Galaxy VIC" (by decide) (by decide)⟩,
   ⟨by decide, by decide, by decide,
    (c1_normalize_supplier_rules "L19 STOCK").2.2.1 (by decide) (by decide) (by decide)⟩⟩

/-- C8: `parse_excel_date` treats a numeric value as a day offset from the
1899-12-30 epoch (`parse_excel_date 44197` agrees with parsing the
equivalent ISO string), tries the four string patterns in the fixed order
d/m/4-digit-year, d/m/2-digit-year, ISO, m/d/4-digit-year with the first
full parse winning, and totally returns `none` for empty, null or
unparseable input. -/
theorem c8_parse_excel_date_behaviour :
    (parse_excel_date (Cell.num 44197) = some "2021-01-01" ∧
     parse_excel_date (Cell.str "2021-01-01") = some "2021-01-01") ∧
    (∀ q : ℚ, parse_excel_date (Cell.num q) = excelSerialToISO (pyTrunc q)) ∧
    (∀ s : String, s ≠ "" → parse_excel_date (Cell.str s) = tryFormats (pyStrip s)) ∧
    (parse_excel_date Cell.cnone = none ∧
     parse_excel_date (Cell.str "") = none ∧
     parse_excel_date (Cell.str "not a date") = none) ∧
    (parse_excel_date (Cell.str "01/02/2021") = some "2021-02-01" ∧
     parse_excel_date (Cell.str "02/28/2021") = some "2021-02-28" ∧
     parse_excel_date (Cell.str "05/06/21") = some "2021-06-05") := by
  refine ⟨⟨by decide, by decide⟩, fun q => rfl, ?_,
    ⟨rfl, by decide, by decide⟩, ⟨by decide, by decide, by decide⟩⟩
  intro s h
  simp [parse_excel_date, h]

/-- Witness for C8's guarded conjunct at a concrete string. -/
theorem c8_parse_excel_date_behaviour_witness :
    ("31/12/1999" : String) ≠ "" ∧
    parse_excel_date (Cell.str "31/12/1999") = tryFormats (pyStrip "31/12/1999") :=
  ⟨by decide, (c8_parse_excel_date_behaviour.2.2.1) "31/12/1999" (by decide)⟩

/-- C9 counterexample: the ingestor emits a `RawRow` whose `buy_price_raw`
is negative (the pipeline passes numeric cells through unchanged), so the
price fields are not non-negative. -/
theorem c9_counterexample_negative_price :
    (load_sheet pyFloatStub "Hope"
      [[Cell.str "h"],
       [Cell.cnone, Cell.cnone, Cell.cnone, Cell.cnone, Cell.cnone, Cell.cnone,
        Cell.cnone, Cell.cnone, Cell.num (-5), Cell.cnone, Cell.cnone]]).map
      (fun r => r.buy_price_raw) = [-5] ∧
    ¬ (0 : ℚ) ≤ (-5 : ℚ) := by
  constructor
  · decide
  · decide

/-- C9 amended: each price field of an ingested `RawRow` equals
`parse_price` of its source cell, and `parse_price` returns zero for empty,
null or unparseable cells and passes numeric cells through unchanged
(possibly negative). -/
theorem c9_amended_price_fields (pf : String → Option ℚ) (src : String)
    (idx : Nat) (cells : List Cell) :
    ((mkRawRow pf src idx cells).buy_price_raw = parse_price pf (cellD cells 8) ∧
     (mkRawRow pf src idx cells).sell_price_raw = parse_price pf (cellD cells 9) ∧
     (mkRawRow pf src idx cells).margin_raw = parse_price pf (cellD cells 10)) ∧
    (parse_price pf Cell.cnone = 0 ∧
     parse_price pf (Cell.str "") = 0) ∧
    (∀ s : String, pf (priceCleanup s) = none → parse_price pf (Cell.str s) = 0) ∧
    (∀ q : ℚ, parse_price pf (Cell.num q) = q) := by
  refine ⟨⟨rfl, rfl, rfl⟩, ⟨rfl, rfl⟩, ?_, fun q => rfl⟩
  intro s hs
  by_cases he : s = ""
  · simp [parse_price, he]
  · simp [parse_price, he, hs]

/-- Witness for C9's amended statement at concrete inputs. -/
theorem c9_amended_price_fields_witness :
    pyFloatStub (priceCleanup "abc") = none ∧
    parse_price pyFloatStub (Cell.str "abc") = 0 ∧
    parse_price pyFloatStub (Cell.num 5) = 5 ∧
    (mkRawRow pyFloatStub "Hope" 2 [Cell.cnone]).buy_price_raw =
      parse_price pyFloatStub (cellD [Cell.cnone] 8) :=
  ⟨rfl,
   (c9_amended_price_fields pyFloatStub "Hope" 2 [Cell.cnone]).2.2.1 "abc" rfl,
   (c9_amended_price_fields pyFloatStub "Hope" 2 [Cell.cnone]).2.2.2 5,
   (c9_amended_price_fields pyFloatStub "Hope" 2 [Cell.cnone]).1.1⟩

/-- The spec's C6 notion of an "empty/null" cell, stated for comparison with
the code's Python-falsiness test (`not any(row)`). -/
def specCellEmptyNull : Cell → Bool
  | .cnone => true
  | .str s => s = ""
  | .num _ => false
  | .date _ _ _ => false

/-- C6 counterexample: a data row whose only cell holds the number `0` is
skipped by `load_sheet` (zero is falsy in Python), although that cell is
neither empty nor null — refuting "omitted if and only if every cell is
empty/null". -/
theorem c6_counterexample_zero_row :
    load_sheet pyFloatStub "Hope" [[Cell.str "h"], [Cell.num 0]] = [] ∧
    ¬ (∀ c ∈ [Cell.num 0], specCellEmptyNull c = true) := by
  constructor
  · decide
  · decide

theorem load_sheet_skip_header (pf : String → Option ℚ) (src : String) :
    ∀ (l : List (List Cell)) (n : Nat), 2 ≤ n →
    ((l.enumFrom n).filterMap fun ic =>
      if ic.1 = 1 then none
      else if ic.2.any cellTruthy then some (mkRawRow pf src ic.1 ic.2) else none) =
    ((l.enumFrom n).filterMap fun ic =>
      if ic.2.any cellTruthy then some (mkRawRow pf src ic.1 ic.2) else none)
  | [], n, _ => rfl
  | c :: cs, n, hn => by
    show List.filterMap _ ((n, c) :: cs.enumFrom (n + 1)) =
      List.filterMap _ ((n, c) :: cs.enumFrom (n + 1))
    rw [List.filterMap_cons, List.filterMap_cons]
    have hn1 : ¬ (n = 1) := by omega
    simp only [if_neg hn1]
    rw [load_sheet_skip_header pf src cs (n + 1) (by omega)]

/-- C6 amended: after the header row (file row 1), `load_sheet` emits, in
original order, exactly the rows containing at least one Python-truthy cell
(so a row is omitted iff every cell is falsy: null, empty string, zero, or
false — not merely "empty/null"), and each emitted `RawRow` carries
`row_number` equal to its 1-based position in the file (`enumFrom 2`
pairs the rows after the header with positions 2, 3, ...). -/
theorem c6_amended_row_ingestion (pf : String → Option ℚ) (src : String)
    (hrow : List Cell) (rest : List (List Cell)) :
    load_sheet pf src (hrow :: rest) =
      (rest.enumFrom 2).filterMap fun ic =>
        if ic.2.any cellTruthy then some (mkRawRow pf src ic.1 ic.2) else none := by
  unfold load_sheet
  show List.filterMap _ ((1, hrow) :: rest.enumFrom 2) = _
  rw [List.filterMap_cons]
  simp only [if_pos rfl]
  exact load_sheet_skip_header pf src rest 2 (by omega)

/-- C7: for every ingested row, the emitted trade category is the title-cased
`category_raw` when non-empty, else the title-cased `brand_raw` when
non-empty, else the title-cased first whitespace token of `item_raw` when
non-empty, else empty; the emitted category is always title-cased, and the
"leather tote bag" example yields "Leather". -/
theorem c7_category_derivation (pf : String → Option ℚ) (src : String)
    (idx : Nat) (cells : List Cell) :
    (tradeCategory (mkRawRow pf src idx cells) = some (
      if (mkRawRow pf src idx cells).category_raw ≠ "" then
        title_case (mkRawRow pf src idx cells).category_raw
      else if (mkRawRow pf src idx cells).brand_raw ≠ "" then
        title_case (mkRawRow pf src idx cells).brand_raw
      else if (mkRawRow pf src idx cells).item_raw ≠ "" then
        title_case ((pyTokens (mkRawRow pf src idx cells).item_raw).headD "")
      else "")) ∧
    (∀ c : String, tradeCategory (mkRawRow pf src idx cells) = some c →
      title_case c = c) ∧
    tradeCategory (mkRawRow pyFloatStub "Hope" 2
      [Cell.cnone, Cell.cnone, Cell.cnone, Cell.cnone, Cell.cnone,
       Cell.str "leather tote bag"]) = some "Leather" := by
  have hmain : tradeCategory (mkRawRow pf src idx cells) = some (
      if (mkRawRow pf src idx cells).category_raw ≠ "" then
        title_case (mkRawRow pf src idx cells).category_raw
      else if (mkRawRow pf src idx cells).brand_raw ≠ "" then
        title_case (mkRawRow pf src idx cells).brand_raw
      else if (mkRawRow pf src idx cells).item_raw ≠ "" then
        title_case ((pyTokens (mkRawRow pf src idx cells).item_raw).headD "")
      else "") := by
    unfold tradeCategory inferCategoryRaw
    split_ifs with h1 h2 h3
    · rfl
    · simp [title_case_idem]
    · have hne : pyTokens (mkRawRow pf src idx cells).item_raw ≠ [] := by
        show pyTokens (clean_text (cellD cells 5)) ≠ []
        exact clean_text_tokens_ne h3
      cases ht : pyTokens (mkRawRow pf src idx cells).item_raw with
      | nil => exact absurd ht hne
      | cons t ts =>
        simp [title_case_idem]
    · have h1' : (mkRawRow pf src idx cells).category_raw = "" := by
        by_cases hcr : (mkRawRow pf src idx cells).category_raw = ""
        · exact hcr
        · exact absurd hcr h1
      rw [h1']
      rfl
  refine ⟨hmain, ?_, by decide⟩
  intro c hc
  rw [hmain] at hc
  have hc' := Option.some.inj hc
  subst hc'
  split_ifs with h1 h2 h3
  · exact title_case_idem _
  · exact title_case_idem _
  · exact title_case_idem _
  · rfl

/-- Witness for C7's guarded conjunct: the emitted category of the
"leather tote bag" example row is itself title-cased. -/
theorem c7_category_derivation_witness :
    tradeCategory (mkRawRow pyFloatStub "Hope" 2
      [Cell.cnone, Cell.cnone, Cell.cnone, Cell.cnone, Cell.cnone,
       Cell.str "leather tote bag"]) = some "Leather" ∧
    title_case "Leather" = "Leather" :=
  ⟨(c7_category_derivation pyFloatStub "Hope" 2 []).2.2,
   (c7_category_derivation pyFloatStub "Hope" 2
      [Cell.cnone, Cell.cnone, Cell.cnone, Cell.cnone, Cell.cnone,
       Cell.str "leather tote bag"]).2.1 "Leather"
     (c7_category_derivation pyFloatStub "Hope" 2 []).2.2⟩

theorem snd_mem_enumFrom {α : Type} :
    ∀ (l : List α) (n : Nat) (p : Nat × α), p ∈ l.enumFrom n → p.2 ∈ l
  | [], _, _, h => by simp at h
  | a :: rest, n, p, h => by
    rcases List.mem_cons.mp h with rfl | h'
    · exact List.mem_cons_self a rest
    · exact List.mem_cons_of_mem a (snd_mem_enumFrom rest (n + 1) p h')

theorem keys_idMap_enum {β : Type} (name : β → String) (gen : Nat → String)
    (l : List β) :
    ((l.enum.map fun ik => (name ik.2, gen ik.1)).map Prod.fst) = l.map name :=
  keys_idMap name gen l 0

theorem findA_idMap_getD_ne {β : Type} (name : β → String) (gen : Nat → String)
    (hgen : ∀ n, gen n ≠ "") (l : List β) (k : String) (hk : k ∈ l.map name) :
    (findA k (l.enum.map fun ik => (name ik.2, gen ik.1))).getD "" ≠ "" := by
  have hsome := findA_isSome_of_key_mem k
    (l.enum.map fun ik => (name ik.2, gen ik.1))
    (by rw [keys_idMap_enum]; exact hk)
  cases hv : findA k (l.enum.map fun ik => (name ik.2, gen ik.1)) with
  | none =>
    rw [hv] at hsome
    cases hsome
  | some v =>
    have hmem := findA_some_mem k v _ hv
    rcases List.mem_map.mp hmem with ⟨ik, _, heq⟩
    have hval : gen ik.1 = v := congrArg Prod.snd heq
    simpa [← hval] using hgen ik.1

theorem supFinalize_clean_name (e : SupAcc) :
    (supFinalize e).clean_name = e.clean_name := rfl

theorem supFinalize_requires_review (e : SupAcc) :
    (supFinalize e).requires_review = e.requires_review := rfl

theorem supFinalize_reason (e : SupAcc) : (supFinalize e).reason = e.reason := rfl

/-- The supplier audit entry found for any key is keyed consistently: its
`clean_name` is the key. -/
theorem supplier_audit_clean_name {rows : List RawRow} {k : String} {e : SupAcc}
    (h : findA k (build_supplier_data rows).2 = some e) : e.clean_name = k := by
  rw [supplier_audit_lookup] at h
  by_cases hG : supGroup k rows = []
  · rw [if_pos hG] at h
    cases h
  · rw [if_neg hG] at h
    have he := Option.some.inj h
    rw [← he, supFinalize_clean_name, supBulk_clean_name]
    rfl

/-- The client audit entry found for any key has `client_clean` equal to the
key. -/
theorem client_audit_client_clean {rows : List RawRow} {k : String} {e : CliAcc}
    (h : findA k (build_client_data rows) = some e) : e.client_clean = k := by
  rw [client_audit_lookup] at h
  by_cases hG : cliGroup k rows = []
  · rw [if_pos hG] at h
    cases h
  · rw [if_neg hG] at h
    have he := Option.some.inj h
    have h1 : ∀ x : CliAcc, (cliFinalize x).client_clean = x.client_clean := by
      intro x
      simp only [cliFinalize]
      split_ifs <;> rfl
    rw [← he, h1, cliBulk_client_clean]
    rfl

/-- A concrete row with an empty supplier, as the ingestor would produce it
from a line whose supplier cell is blank. -/
def emptySupplierRow : RawRow :=
  { date := none, invoice_number := "", client_raw := "", client_status_raw := "",
    supplier_raw := "", item_raw := "", brand_raw := "", category_raw := "",
    buy_price_raw := 0, sell_price_raw := 0, margin_raw := 1, source := "Hope",
    row_number := 2 }

/-- A concrete row with supplier "Galaxy". -/
def galaxyRow : RawRow :=
  { emptySupplierRow with supplier_raw := "Galaxy", row_number := 3 }

/-- C2 counterexample: an input containing a row whose raw supplier is the
empty string produces a `supplier_normalisation_map` with **no** entry keyed
by that raw string (the loop keys the entry under the substituted
"Unknown"), refuting "the map contains an entry keyed by s for every raw
supplier string s occurring in an input row, including the empty string". -/
theorem c2_counterexample_empty_string_key :
    emptySupplierRow ∈ [emptySupplierRow] ∧
    emptySupplierRow.supplier_raw = "" ∧
    findA "" (build_supplier_data [emptySupplierRow]).1 = none := by
  refine ⟨List.mem_singleton.mpr rfl, rfl, ?_⟩
  decide

/-- C2 amended: the canonical supplier name assigned during aggregation
equals the one assigned during the final join for every row; the emitted map
has an entry `s ↦ normalize_supplier s` for every non-empty raw supplier
string occurring in the rows; an empty raw supplier is recorded under the
key "Unknown" instead, with the classification of the literal string
"Unknown" (so the "Empty supplier" review flag is not in the map). -/
theorem c2_amended_classification_consistency (rows : List RawRow) :
    (∀ r ∈ rows, aggSupplierClean r = joinSupplierClean r) ∧
    (∀ s : String, s ≠ "" → (∃ r ∈ rows, r.supplier_raw = s) →
      findA s (build_supplier_data rows).1 = some (normalize_supplier s)) ∧
    ((∃ r ∈ rows, r.supplier_raw = "") →
      findA "Unknown" (build_supplier_data rows).1 =
        some (normalize_supplier "Unknown")) := by
  refine ⟨fun r _ => supplier_clean_agree r, ?_, ?_⟩
  · rintro s hs ⟨r, hr, he⟩
    rw [build_supplier_data_fst, findA_supMapFold]
    have hany : (rows.any fun r => effSupplierRaw r = s) = true := by
      rw [List.any_eq_true]
      refine ⟨r, hr, ?_⟩
      have : effSupplierRaw r = s := by
        unfold effSupplierRaw
        rw [he]
        rw [if_neg hs]
      simp [this]
    rw [if_pos hany]
  · rintro ⟨r, hr, he⟩
    rw [build_supplier_data_fst, findA_supMapFold]
    have hany : (rows.any fun r => effSupplierRaw r = "Unknown") = true := by
      rw [List.any_eq_true]
      refine ⟨r, hr, ?_⟩
      have : effSupplierRaw r = "Unknown" := by
        unfold effSupplierRaw
        rw [if_pos he]
      simp [this]
    rw [if_pos hany]

/-- Witness for C2's amended statement on a two-row input. -/
theorem c2_amended_classification_consistency_witness :
    aggSupplierClean galaxyRow = joinSupplierClean galaxyRow ∧
    findA "Galaxy" (build_supplier_data [emptySupplierRow, galaxyRow]).1 =
      some (normalize_supplier "Galaxy") ∧
    findA "Unknown" (build_supplier_data [emptySupplierRow, galaxyRow]).1 =
      some (normalize_supplier "Unknown") :=
  ⟨(c2_amended_classification_consistency [emptySupplierRow, galaxyRow]).1
      galaxyRow (by decide),
   (c2_amended_classification_consistency [emptySupplierRow, galaxyRow]).2.1
      "Galaxy" (by decide) ⟨galaxyRow, by decide, rfl⟩,
   (c2_amended_classification_consistency [emptySupplierRow, galaxyRow]).2.2
      ⟨emptySupplierRow, by decide, rfl⟩⟩

/-- C3: referential integrity of the assembled tables — every emitted
trade's `supplier_id`/`client_id` is the `id` of a record in
`legacy_suppliers`/`legacy_clients`, and neither is the defensive
empty-string default, whenever trades and audits are built from the same
row sequence (and the id generators never return the empty string, as
`uuid4` strings never are). -/
theorem c3_referential_integrity (sgen cgen tgen : Nat → String)
    (rows : List RawRow) (hs : ∀ n, sgen n ≠ "") (hc : ∀ n, cgen n ≠ "") :
    ∀ t ∈ (pipelineTables sgen cgen tgen rows).2.2,
      (∃ ls ∈ (pipelineTables sgen cgen tgen rows).1, ls.id = t.supplier_id) ∧
      (∃ lc ∈ (pipelineTables sgen cgen tgen rows).2.1, lc.id = t.client_id) ∧
      t.supplier_id ≠ "" ∧ t.client_id ≠ "" := by
  intro t ht
  rcases List.mem_map.mp ht with ⟨ir, hir, rfl⟩
  have hrow : ir.2 ∈ rows := snd_mem_enumFrom rows 0 ir hir
  -- supplier side
  have hkS : supGroup (joinSupplierClean ir.2) rows ≠ [] := by
    intro hG
    have hm : ir.2 ∈ supGroup (joinSupplierClean ir.2) rows := by
      unfold supGroup
      rw [List.mem_filter]
      exact ⟨hrow, by simp [supplier_clean_agree ir.2]⟩
    rw [hG] at hm
    simp at hm
  obtain ⟨eS, heS⟩ : ∃ e, findA (joinSupplierClean ir.2)
      (build_supplier_data rows).2 = some e := by
    rw [supplier_audit_lookup, if_neg hkS]
    exact ⟨_, rfl⟩
  have hcleanS : eS.clean_name = joinSupplierClean ir.2 :=
    supplier_audit_clean_name heS
  have hmemS : (joinSupplierClean ir.2, eS) ∈ (build_supplier_data rows).2 :=
    findA_some_mem _ _ _ heS
  -- client side
  have hkC : cliGroup (joinClientClean ir.2) rows ≠ [] := by
    intro hG
    have hm : ir.2 ∈ cliGroup (joinClientClean ir.2) rows := by
      unfold cliGroup
      rw [List.mem_filter]
      exact ⟨hrow, by simp [client_clean_agree ir.2]⟩
    rw [hG] at hm
    simp at hm
  obtain ⟨eC, heC⟩ : ∃ e, findA (joinClientClean ir.2)
      (build_client_data rows) = some e := by
    rw [client_audit_lookup, if_neg hkC]
    exact ⟨_, rfl⟩
  have hcleanC : eC.client_clean = joinClientClean ir.2 :=
    client_audit_client_clean heC
  have hmemC : (joinClientClean ir.2, eC) ∈ build_client_data rows :=
    findA_some_mem _ _ _ heC
  refine ⟨⟨mkLegacySupplier (supplierIdMap sgen (build_supplier_data rows).2) rows
      (joinSupplierClean ir.2, eS), List.mem_map.mpr ⟨_, hmemS, rfl⟩, ?_⟩,
    ⟨mkLegacyClient (clientIdMap cgen (build_client_data rows))
      (joinClientClean ir.2, eC), ?_, ?_⟩, ?_, ?_⟩
  · show (findA (joinSupplierClean ir.2, eS).2.clean_name
      (supplierIdMap sgen (build_supplier_data rows).2)).getD "" = _
    rw [hcleanS]
    rfl
  · exact List.mem_map.mpr ⟨(joinClientClean ir.2, eC), hmemC, rfl⟩
  · show (findA (joinClientClean ir.2, eC).2.client_clean
      (clientIdMap cgen (build_client_data rows))).getD "" = _
    rw [hcleanC]
    rfl
  · show (findA (joinSupplierClean ir.2)
      (supplierIdMap sgen (build_supplier_data rows).2)).getD "" ≠ ""
    have hk : joinSupplierClean ir.2 ∈
        ((build_supplier_data rows).2).map fun kv => kv.2.clean_name :=
      List.mem_map.mpr ⟨(joinSupplierClean ir.2, eS), hmemS, hcleanS⟩
    exact findA_idMap_getD_ne (fun kv => kv.2.clean_name) sgen hs
      ((build_supplier_data rows).2) (joinSupplierClean ir.2) hk
  · show (findA (joinClientClean ir.2)
      (clientIdMap cgen (build_client_data rows))).getD "" ≠ ""
    have hk : joinClientClean ir.2 ∈
        (build_client_data rows).map fun kv => kv.2.client_clean :=
      List.mem_map.mpr ⟨(joinClientClean ir.2, eC), hmemC, hcleanC⟩
    exact findA_idMap_getD_ne (fun kv => kv.2.client_clean) cgen hc
      (build_client_data rows) (joinClientClean ir.2) hk

/-- Constant id generators used by closed examples. -/
def sidGen : Nat → String := fun _ => "sid"

def cidGen : Nat → String := fun _ => "cid"

def tidGen : Nat → String := fun _ => "tid"

/-- Witness for C3 at a concrete generator and one-row input. -/
theorem c3_referential_integrity_witness :
    ∃ t ∈ (pipelineTables sidGen cidGen tidGen [galaxyRow]).2.2,
      (∃ ls ∈ (pipelineTables sidGen cidGen tidGen [galaxyRow]).1,
        ls.id = t.supplier_id) ∧
      (∃ lc ∈ (pipelineTables sidGen cidGen tidGen [galaxyRow]).2.1,
        lc.id = t.client_id) ∧
      t.supplier_id ≠ "" ∧ t.client_id ≠ "" := by
  refine ⟨mkLegacyTrade tidGen
    (supplierIdMap sidGen (build_supplier_data [galaxyRow]).2)
    (clientIdMap cidGen (build_client_data [galaxyRow]))
    (0, galaxyRow), by decide, ?_⟩
  refine c3_referential_integrity sidGen cidGen tidGen [galaxyRow] ?_ ?_ _ (by decide)
  · intro n
    show ("sid" : String) ≠ ""
    decide
  · intro n
    show ("cid" : String) ≠ ""
    decide

theorem mem_sortStr {x : String} {l : List String} : x ∈ sortStr l ↔ x ∈ l :=
  (sortStr_perm l).mem_iff

theorem aggSupplierClean_unknown_iff (r : RawRow) :
    aggSupplierClean r = "Unknown" ↔ effSupplierRaw r = "Unknown" := by
  constructor
  · intro h
    unfold aggSupplierClean normalize_supplier at h
    rw [if_neg (effSupplierRaw_ne r)] at h
    cases hm : SUPPLIER_AUTO_MERGE (effSupplierRaw r) with
    | none =>
      rw [hm] at h
      split_ifs at h <;> exact h
    | some t =>
      rw [hm] at h
      have ht : t = "Unknown" := h
      rcases merge_target hm with h2 | h2 | h2 <;> rw [h2] at ht <;>
        exact absurd ht (by decide)
  · intro h
    unfold aggSupplierClean
    rw [h]
    decide

/-- C10: the supplier aggregation substitutes "Unknown" for an empty raw
supplier before normalizing, so whenever some row has an empty or literal
"Unknown" supplier, the audit entry (and `legacy_suppliers` record) with
clean name "Unknown" has `requires_review = false` and an empty reason, and
its `raw_variants` contain the literal "Unknown" and never the empty
string. -/
theorem c10_unknown_supplier_entry (sgen cgen tgen : Nat → String)
    (rows : List RawRow)
    (h : ∃ r ∈ rows, r.supplier_raw = "" ∨ r.supplier_raw = "Unknown") :
    ∃ e : SupAcc,
      findA "Unknown" (build_supplier_data rows).2 = some e ∧
      e.requires_review = false ∧ e.reason = "" ∧
      "Unknown" ∈ e.raw_variants ∧ "" ∉ e.raw_variants ∧
      ∃ ls ∈ (pipelineTables sgen cgen tgen rows).1,
        ls.supplier_clean = "Unknown" ∧ ls.requires_review = false ∧
        ls.reason = "" ∧ "Unknown" ∈ ls.raw_variants ∧ "" ∉ ls.raw_variants := by
  obtain ⟨r, hr, hcase⟩ := h
  have heff : effSupplierRaw r = "Unknown" := by
    unfold effSupplierRaw
    rcases hcase with he | he
    · rw [if_pos he]
    · rw [he]
      rw [if_neg (by decide)]
  have hG : supGroup "Unknown" rows ≠ [] := by
    intro hG
    have hm : r ∈ supGroup "Unknown" rows := by
      unfold supGroup
      rw [List.mem_filter]
      exact ⟨hr, by simp [(aggSupplierClean_unknown_iff r).mpr heff]⟩
    rw [hG] at hm
    simp at hm
  have hfind : findA "Unknown" (build_supplier_data rows).2 =
      some (supFinalize (supBulk (supInit "Unknown" (normalize_supplier "Unknown"))
        (supGroup "Unknown" rows))) := by
    rw [supplier_audit_lookup, if_neg hG]
  have hvar : (supFinalize (supBulk (supInit "Unknown"
      (normalize_supplier "Unknown")) (supGroup "Unknown" rows))).raw_variants =
      sortStr (((supGroup "Unknown" rows).map effSupplierRaw).foldl addSet []) := by
    show sortStr ((supBulk (supInit "Unknown" (normalize_supplier "Unknown"))
      (supGroup "Unknown" rows)).raw_variants) = _
    rw [supBulk_raw_variants]
    rfl
  have hGall : ∀ x ∈ (supGroup "Unknown" rows).map effSupplierRaw, x = "Unknown" := by
    intro x hx
    rcases List.mem_map.mp hx with ⟨r', hr', rfl⟩
    unfold supGroup at hr'
    rw [List.mem_filter] at hr'
    exact (aggSupplierClean_unknown_iff r').mp (by simpa using hr'.2)
  have hmemU : "Unknown" ∈ (supFinalize (supBulk (supInit "Unknown"
      (normalize_supplier "Unknown")) (supGroup "Unknown" rows))).raw_variants := by
    rw [hvar, mem_sortStr, mem_foldl_addSet]
    refine Or.inr (List.mem_map.mpr ⟨r, ?_, heff⟩)
    unfold supGroup
    rw [List.mem_filter]
    exact ⟨hr, by simp [(aggSupplierClean_unknown_iff r).mpr heff]⟩
  have hmemE : "" ∉ (supFinalize (supBulk (supInit "Unknown"
      (normalize_supplier "Unknown")) (supGroup "Unknown" rows))).raw_variants := by
    rw [hvar, mem_sortStr, mem_foldl_addSet]
    rintro (hx | hx)
    · simp at hx
    · exact absurd (hGall "" hx) (by decide)
  have hrr : (supFinalize (supBulk (supInit "Unknown"
      (normalize_supplier "Unknown")) (supGroup "Unknown" rows))).requires_review =
      false := by
    rw [supFinalize_requires_review, supBulk_requires_review]
    decide
  have hre : (supFinalize (supBulk (supInit "Unknown"
      (normalize_supplier "Unknown")) (supGroup "Unknown" rows))).reason = "" := by
    rw [supFinalize_reason, supBulk_reason]
    decide
  refine ⟨_, hfind, hrr, hre, hmemU, hmemE, ?_⟩
  refine ⟨mkLegacySupplier (supplierIdMap sgen (build_supplier_data rows).2) rows
    ("Unknown", supFinalize (supBulk (supInit "Unknown"
      (normalize_supplier "Unknown")) (supGroup "Unknown" rows))),
    List.mem_map.mpr ⟨_, findA_some_mem _ _ _ hfind, rfl⟩, ?_, hrr, hre, hmemU, hmemE⟩
  show (supFinalize (supBulk (supInit "Unknown" (normalize_supplier "Unknown"))
    (supGroup "Unknown" rows))).clean_name = "Unknown"
  exact supplier_audit_clean_name hfind

/-- Witness for C10 on a one-row input with an empty supplier. -/
theorem c10_unknown_supplier_entry_witness :
    ∃ e : SupAcc,
      findA "Unknown" (build_supplier_data [emptySupplierRow]).2 = some e ∧
      e.requires_review = false ∧ e.reason = "" ∧
      "Unknown" ∈ e.raw_variants ∧ "" ∉ e.raw_variants ∧
      ∃ ls ∈ (pipelineTables sidGen cidGen tidGen [emptySupplierRow]).1,
        ls.supplier_clean = "Unknown" ∧ ls.requires_review = false ∧
        ls.reason = "" ∧ "Unknown" ∈ ls.raw_variants ∧ "" ∉ ls.raw_variants :=
  c10_unknown_supplier_entry sidGen cidGen tidGen [emptySupplierRow]
    ⟨emptySupplierRow, List.mem_singleton.mpr rfl, Or.inl rfl⟩

theorem cliBulk_reason (G : List RawRow) :
    ∀ (e : CliAcc), (cliBulk e G).reason = e.reason := by
  induction G with
  | nil => intro e; rfl
  | cons r rest ih =>
    intro e
    show (cliBulk (cliUpd r e) rest).reason = _
    rw [ih (cliUpd r e), cliUpd_reason]

theorem cliFinalize_requires_review (x : CliAcc) :
    (cliFinalize x).requires_review =
      if 1 < (sortStr x.client_statuses).length then true else x.requires_review := by
  simp only [cliFinalize]
  split_ifs <;> rfl

theorem cliFinalize_reason (x : CliAcc) :
    (cliFinalize x).reason =
      if 1 < (sortStr x.client_statuses).length then
        some ("Multiple statuses: " ++ pyJoin ", " (sortStr x.client_statuses))
      else x.reason := by
  simp only [cliFinalize]
  split_ifs <;> rfl

theorem cliFinalize_raw_variants (x : CliAcc) :
    (cliFinalize x).raw_variants = sortStr x.raw_variants := by
  simp only [cliFinalize]
  split_ifs <;> rfl

theorem cliFinalize_sources (x : CliAcc) :
    (cliFinalize x).sources = sortStr x.sources := by
  simp only [cliFinalize]
  split_ifs <;> rfl

theorem foldl_addSet_perm_dedup {α : Type} [DecidableEq α] (l : List α) :
    (l.foldl addSet []).Perm l.dedup := by
  apply List.perm_of_nodup_nodup_toFinset_eq
  · exact nodup_foldl_addSet l [] (by simp)
  · exact List.nodup_dedup l
  · ext a
    simp [List.mem_toFinset, mem_foldl_addSet, List.mem_dedup]

/-- C5: a canonical client group is flagged `requires_review = true` with
reason "Multiple statuses: <comma-joined sorted distinct statuses>" if and
only if its rows carried more than one distinct `client_status_raw` value
(the empty string counting as a value); a single-status group is never
flagged, and an unflagged group carries no reason. -/
theorem c5_client_status_review (rows : List RawRow) :
    ∀ kv ∈ build_client_data rows,
      (kv.2.requires_review = true ↔
        1 < (((cliGroup kv.1 rows).map fun r => r.client_status_raw).dedup).length) ∧
      (kv.2.requires_review = true →
        kv.2.reason = some ("Multiple statuses: " ++ pyJoin ", "
          (sortStr (((cliGroup kv.1 rows).map fun r => r.client_status_raw).dedup)))) ∧
      (kv.2.requires_review = false → kv.2.reason = none) := by
  rintro ⟨k, e⟩ hm
  have hf := findA_of_mem_client_audit hm
  rw [client_audit_lookup] at hf
  by_cases hG : cliGroup k rows = []
  · rw [if_pos hG] at hf
    cases hf
  · rw [if_neg hG] at hf
    have he := Option.some.inj hf
    have hsts : (cliBulk (cliInit k) (cliGroup k rows)).client_statuses =
        ((cliGroup k rows).map fun r => r.client_status_raw).foldl addSet [] := by
      rw [cliBulk_client_statuses]
      rfl
    have hrr0 : (cliBulk (cliInit k) (cliGroup k rows)).requires_review = false := by
      rw [cliBulk_requires_review]
      rfl
    have hrsn0 : (cliBulk (cliInit k) (cliGroup k rows)).reason = none := by
      rw [cliBulk_reason]
      rfl
    have hperm : (((cliGroup k rows).map fun r => r.client_status_raw).foldl
        addSet []).Perm (((cliGroup k rows).map fun r => r.client_status_raw).dedup) :=
      foldl_addSet_perm_dedup _
    have hlen : (sortStr ((cliBulk (cliInit k) (cliGroup k rows)).client_statuses)).length =
        (((cliGroup k rows).map fun r => r.client_status_raw).dedup).length := by
      rw [hsts, (sortStr_perm _).length_eq]
      exact hperm.length_eq
    have hsort : sortStr ((cliBulk (cliInit k) (cliGroup k rows)).client_statuses) =
        sortStr (((cliGroup k rows).map fun r => r.client_status_raw).dedup) := by
      rw [hsts]
      exact sortStr_eq_of_perm hperm
    refine ⟨?_, ?_, ?_⟩
    · rw [← he, cliFinalize_requires_review, hrr0, hlen]
      split_ifs with hcond
      · simp [hcond]
      · simp [hcond]
    · intro hrrt
      rw [← he, cliFinalize_reason]
      rw [← he, cliFinalize_requires_review, hrr0] at hrrt
      split_ifs at hrrt with hcond
      rw [if_pos hcond, hsort]
    · intro hrrf
      rw [← he, cliFinalize_reason]
      rw [← he, cliFinalize_requires_review, hrr0] at hrrf
      split_ifs at hrrf with hcond
      rw [if_neg hcond, hrsn0]

/-- A concrete client row with status "Active". -/
def activeRow : RawRow :=
  { emptySupplierRow with client_raw := "Acme", client_status_raw := "Active" }

/-- A concrete client row with status "Closed". -/
def closedRow : RawRow :=
  { emptySupplierRow with
    client_raw := "Acme"
    client_status_raw := "Closed"
    row_number := 3 }

/-- Witness for C5 on a two-status client group. -/
theorem c5_client_status_review_witness :
    ∃ kv ∈ build_client_data [activeRow, closedRow],
      (kv.2.requires_review = true ↔
        1 < (((cliGroup kv.1 [activeRow, closedRow]).map
          fun r => r.client_status_raw).dedup).length) ∧
      (kv.2.requires_review = true →
        kv.2.reason = some ("Multiple statuses: " ++ pyJoin ", "
          (sortStr (((cliGroup kv.1 [activeRow, closedRow]).map
            fun r => r.client_status_raw).dedup)))) ∧
      (kv.2.requires_review = false → kv.2.reason = none) :=
  ⟨("acme", cliFinalize (cliBulk (cliInit "acme")
      (cliGroup "acme" [activeRow, closedRow]))), by decide,
   c5_client_status_review [activeRow, closedRow] _ (by decide)⟩

/-- C4 counterexample: permuting two input rows changes the emitted supplier
audit table byte-for-byte (the per-entry `rows` list of row numbers follows
encounter order), and permutes `legacy_trades`, so permuted inputs do not
yield identical emitted collections even ignoring generated ids. -/
theorem c4_counterexample_row_order :
    List.Perm [activeRow, closedRow] [closedRow, activeRow] ∧
    (build_supplier_data [activeRow, closedRow]).2 ≠
      (build_supplier_data [closedRow, activeRow]).2 ∧
    ((pipelineTables sidGen cidGen tidGen [activeRow, closedRow]).2.2.map
      fun t => t.raw_row) ≠
    ((pipelineTables sidGen cidGen tidGen [closedRow, activeRow]).2.2.map
      fun t => t.raw_row) := by
  refine ⟨List.Perm.swap closedRow activeRow [], ?_, ?_⟩
  · decide
  · decide

/-- C4 amended: `raw_variants` and `sources` are deduplicated and sorted in
every emitted supplier and client audit record (and hence in the
`legacy_suppliers`/`legacy_clients` records copied from them); but whole
emitted collections are not byte-identical under permutation of the input
rows, since collection order and the per-entry row-number lists follow
encounter order (see the counterexample). -/
theorem c4_amended_sorted_dedup (rows : List RawRow) :
    (∀ kv ∈ (build_supplier_data rows).2,
      List.Sorted sLe kv.2.raw_variants ∧ kv.2.raw_variants.Nodup ∧
      List.Sorted sLe kv.2.sources ∧ kv.2.sources.Nodup) ∧
    (∀ kv ∈ build_client_data rows,
      List.Sorted sLe kv.2.raw_variants ∧ kv.2.raw_variants.Nodup ∧
      List.Sorted sLe kv.2.sources ∧ kv.2.sources.Nodup) := by
  constructor
  · rintro ⟨k, e⟩ hm
    have hf := findA_of_mem_supplier_audit hm
    rw [supplier_audit_lookup] at hf
    by_cases hG : supGroup k rows = []
    · rw [if_pos hG] at hf
      cases hf
    · rw [if_neg hG] at hf
      have he := Option.some.inj hf
      have hv : e.raw_variants = sortStr
          (((supGroup k rows).map effSupplierRaw).foldl addSet []) := by
        rw [← he]
        show sortStr ((supBulk (supInit k (normalize_supplier k))
          (supGroup k rows)).raw_variants) = _
        rw [supBulk_raw_variants]
        rfl
      have hsrc : e.sources = sortStr
          (((supGroup k rows).map fun r => r.source).foldl addSet []) := by
        rw [← he]
        show sortStr ((supBulk (supInit k (normalize_supplier k))
          (supGroup k rows)).sources) = _
        rw [supBulk_sources]
        rfl
      refine ⟨hv ▸ sortStr_sorted _, ?_, hsrc ▸ sortStr_sorted _, ?_⟩
      · rw [hv, (sortStr_perm _).nodup_iff]
        exact nodup_foldl_addSet _ [] (by simp)
      · rw [hsrc, (sortStr_perm _).nodup_iff]
        exact nodup_foldl_addSet _ [] (by simp)
  · rintro ⟨k, e⟩ hm
    have hf := findA_of_mem_client_audit hm
    rw [client_audit_lookup] at hf
    by_cases hG : cliGroup k rows = []
    · rw [if_pos hG] at hf
      cases hf
    · rw [if_neg hG] at hf
      have he := Option.some.inj hf
      have hv : e.raw_variants = sortStr
          (((cliGroup k rows).map effClientRaw).foldl addSet []) := by
        rw [← he, cliFinalize_raw_variants, cliBulk_raw_variants]
        rfl
      have hsrc : e.sources = sortStr
          (((cliGroup k rows).map fun r => r.source).foldl addSet []) := by
        rw [← he, cliFinalize_sources, cliBulk_sources]
        rfl
      refine ⟨hv ▸ sortStr_sorted _, ?_, hsrc ▸ sortStr_sorted _, ?_⟩
      · rw [hv, (sortStr_perm _).nodup_iff]
        exact nodup_foldl_addSet _ [] (by simp)
      · rw [hsrc, (sortStr_perm _).nodup_iff]
        exact nodup_foldl_addSet _ [] (by simp)

/-- Witness for C4's amended statement on concrete entries of both audit
tables. -/
theorem c4_amended_sorted_dedup_witness :
    (∃ kv ∈ (build_supplier_data [activeRow, closedRow]).2,
      List.Sorted sLe kv.2.raw_variants ∧ kv.2.raw_variants.Nodup ∧
      List.Sorted sLe kv.2.sources ∧ kv.2.sources.Nodup) ∧
    (∃ kv ∈ build_client_data [activeRow, closedRow],
      List.Sorted sLe kv.2.raw_variants ∧ kv.2.raw_variants.Nodup ∧
      List.Sorted sLe kv.2.sources ∧ kv.2.sources.Nodup) :=
  ⟨⟨("Unknown", supFinalize (supBulk (supInit "Unknown"
      (normalize_supplier "Unknown")) (supGroup "Unknown" [activeRow, closedRow]))),
    by decide,
    (c4_amended_sorted_dedup [activeRow, closedRow]).1 _ (by decide)⟩,
   ⟨("acme", cliFinalize (cliBulk (cliInit "acme")
      (cliGroup "acme" [activeRow, closedRow]))),
    by decide,
    (c4_amended_sorted_dedup [activeRow, closedRow]).2 _ (by decide)⟩⟩
